import Mathlib

/-!
Verification development for the Amortized Quantum Messaging database core.

This file gives a shallow embedding, in Lean 4, of the core of the
repository: the Smart Inventory (`AQM_Database/inventory.py`), the Secure
Vault (`AQM_Database/vault.py`), the Coin Inventory Server
(`AQM_Database/aqm_server/coin_inventory.py`), the Bridge
(`AQM_Database/bridge.py`) and the Garbage Collector
(`AQM_Database/aqm_db/garbage_collector.py`), together with theorems about
the guarantees stated in the specification.

Embedding conventions:
* The source uses string tags for tiers, priorities and statuses, validated
  against the sets in `config.py`; we embed them as the inductive types
  `Tier`, `Priority`, `Status` (validation of a tag not in the set raises
  in the source and is unrepresentable here; no claim is about the
  invalid-tag paths).
* Redis hashes keyed by composite keys are embedded as association lists;
  redis sorted sets (one per `(contact, tier)` index) are embedded as lists
  of `(member, score)` pairs kept sorted by `(score, member)`, matching the
  redis ordering (score ascending, ties broken by member lexicographically).
* Timestamps (`time.time() * 1000`) are explicit `Nat` parameters of each
  operation.  Byte blobs are opaque `String`s.
* Exceptions become `Except` results; a raised exception never commits any
  partial mutation in the embedded operations, matching the source, where
  every raise happens before the mutating pipeline executes.
* The sequential embedding of `store_key` resolves the optimistic
  `WATCH`/`MULTI` retry loop to its first iteration: with no concurrent
  writer the first attempt either raises before the pipeline or commits.
  TTL-based passive expiry of redis records is real-time behaviour outside
  the embedded operations and is not modelled.
-/

deriving instance DecidableEq for Except

namespace AQM

/-- Coin tier, ordered GOLD > SILVER > BRONZE (`config.VALID_COIN_CATEGORIES`). -/
inductive Tier where
  | GOLD
  | SILVER
  | BRONZE
deriving DecidableEq, Repr

/-- Contact priority (`config.VALID_PRIORITIES`). -/
inductive Priority where
  | BESTIE
  | MATE
  | STRANGER
deriving DecidableEq, Repr

/-- Vault entry status (`config.VALID_STATUSES`). -/
inductive Status where
  | ACTIVE
  | BURNED
deriving DecidableEq, Repr

open Tier Priority Status

/-- Budget caps table `config.BUDGET_CAPS` (priority → tier → cap). -/
def BUDGET_CAPS (p : Priority) (t : Tier) : Nat :=
  match p, t with
  | BESTIE, GOLD => 5
  | BESTIE, SILVER => 4
  | BESTIE, BRONZE => 1
  | MATE, GOLD => 0
  | MATE, SILVER => 6
  | MATE, BRONZE => 4
  | STRANGER, _ => 0

/-- Tier fallback table `config.TIER_FALLBACK` (downward substitution only). -/
def TIER_FALLBACK : Tier → List Tier
  | GOLD => [SILVER, BRONZE]
  | SILVER => [BRONZE]
  | BRONZE => []

/-- Approximate blob sizes `config.COIN_SIZE_BYTES`. -/
def COIN_SIZE_BYTES : Tier → Nat
  | GOLD => 3604
  | SILVER => 1248
  | BRONZE => 96

/-- Priority rank as computed by `["BESTIE", "MATE", "STRANGER"].index(p)`
in `SmartInventory.set_contact_priority`; lower rank = higher priority. -/
def priorityRank : Priority → Nat
  | BESTIE => 0
  | MATE => 1
  | STRANGER => 2

/-- Numeric tier level used to express "higher tier": GOLD highest. -/
def tierLevel : Tier → Nat
  | GOLD => 2
  | SILVER => 1
  | BRONZE => 0

/-! Association lists.  Redis keyspaces are embedded as association lists;
`alookup`, `aupdate`, `aremove` follow the first-occurrence discipline, so
they agree with the redis key/value semantics whenever the key lists are
duplicate-free (which all reachable states satisfy). -/
/-- Look up a key in an association list (first occurrence). -/
def alookup {α β : Type} [DecidableEq α] : List (α × β) → α → Option β
  | [], _ => none
  | (a, b) :: t, k => if a = k then some b else alookup t k

/-- Set a key in an association list: replace the first binding in place,
or append a fresh binding at the end. -/
def aupdate {α β : Type} [DecidableEq α] : List (α × β) → α → β → List (α × β)
  | [], k, v => [(k, v)]
  | (a, b) :: t, k, v => if a = k then (k, v) :: t else (a, b) :: aupdate t k v

/-- Delete the first binding of a key from an association list. -/
def aremove {α β : Type} [DecidableEq α] : List (α × β) → α → List (α × β)
  | [], _ => []
  | (a, b) :: t, k => if a = k then t else (a, b) :: aremove t k

/-- Delete a batch of keys (the per-entry `DEL` pipeline loops). -/
def aremoveAll {α β : Type} [DecidableEq α] (l : List (α × β)) (ks : List α) :
    List (α × β) :=
  ks.foldl aremove l

/-! Redis sorted sets.  A sorted set is a list of `(member, score)` pairs
ordered by score ascending, ties by member lexicographically — the redis
iteration order, which `ZPOPMIN` / `ZPOPMAX` / `ZRANGE` observe. -/
/-- Entry order of a redis sorted set: by score, then by member. -/
def zle (a b : String × Nat) : Prop :=
  a.2 < b.2 ∨ (a.2 = b.2 ∧ a.1 ≤ b.1)

instance : DecidableRel zle := fun a b => by
  unfold zle; infer_instance

/-- A sorted-set representation is ordered by `zle`. -/
def ZSorted (l : List (String × Nat)) : Prop := l.Pairwise zle

instance : DecidablePred ZSorted := fun l => by
  unfold ZSorted; infer_instance

/-- Members of a sorted set. -/
def zmembers (l : List (String × Nat)) : List String := l.map Prod.fst

/-- Insert a `(member, score)` pair at its ordered position. -/
def zinsertSorted (k : String) (sc : Nat) : List (String × Nat) → List (String × Nat)
  | [] => [(k, sc)]
  | (m, s) :: t =>
    if sc < s ∨ (sc = s ∧ k ≤ m) then (k, sc) :: (m, s) :: t
    else (m, s) :: zinsertSorted k sc t

/-- Redis `ZADD`: update the member's score (removing any previous binding)
and place it at its ordered position. -/
def zadd (l : List (String × Nat)) (k : String) (sc : Nat) : List (String × Nat) :=
  zinsertSorted k sc (aremove l k)

/-! Smart Inventory (`AQM_Database/inventory.py`). -/
/-- Cached public coin (`types.InventoryEntry`). -/
structure InventoryEntry where
  contact_id : String
  key_id : String
  coin_category : Tier
  public_key : String
  signature : String
  fetched_at : Nat
deriving DecidableEq, Repr

/-- Per-contact metadata (`types.ContactMeta`). -/
structure ContactMeta where
  contact_id : String
  priority : Priority
  last_msg_at : Nat
  display_name : String
deriving DecidableEq, Repr

/-- Per-contact summary (`types.InventorySummary`). -/
structure InventorySummary where
  contact_id : String
  gold_count : Nat
  silver_count : Nat
  bronze_count : Nat
  priority : Priority
deriving DecidableEq, Repr

/-- The Smart Inventory redis keyspace (logical DB 1):
`meta` embeds the `inv:v1:meta:{contact_id}` hashes, `recs` the
`inv:v1:key:{contact_id}:{key_id}` hashes, and `idx` the
`inv:v1:idx:{contact_id}:{coin_category}` sorted sets. -/
structure InvState where
  meta : List (String × ContactMeta)
  recs : List ((String × String) × InventoryEntry)
  idx : List ((String × Tier) × List (String × Nat))
deriving DecidableEq, Repr

/-- The empty inventory keyspace. -/
def invInit : InvState := ⟨[], [], []⟩

/-- Inventory errors (`errors.py`); `concurrency` is the
`ConcurrencyError` raised when the optimistic retry budget is exhausted,
unreachable in the sequential embedding. -/
inductive InvError where
  | contactNotRegistered (contact_id : String)
  | budgetExceeded (contact_id : String) (coin_category : Tier) (current : Nat) (cap : Nat)
  | concurrency (op : String)
deriving DecidableEq, Repr

/-- The sorted set stored at `inv:v1:idx:{contact_id}:{coin_category}`
(a missing redis key reads as the empty sorted set). -/
def idxOf (s : InvState) (c : String) (t : Tier) : List (String × Nat) :=
  (alookup s.idx (c, t)).getD []

/-- Priority lookup `SmartInventory._get_priority`, with the absent case
exposed as `none` instead of the raise (callers turn it into
`ContactNotRegisteredError`). -/
def getPriority (s : InvState) (c : String) : Option Priority :=
  (alookup s.meta c).map (·.priority)

/-- Embeds `SmartInventory.register_contact`: no-op returning `false`
when the meta hash exists; otherwise writes the meta hash with
`last_msg_at = now` and returns `true`. -/
def register_contact (s : InvState) (c : String) (p : Priority)
    (displayName : String) (now : Nat) : Bool × InvState :=
  match alookup s.meta c with
  | some _ => (false, s)
  | none => (true, { s with meta := aupdate s.meta c ⟨c, p, now, displayName⟩ })

/-- Embeds `SmartInventory.get_contact_meta`. -/
def get_contact_meta (s : InvState) (c : String) : Option ContactMeta :=
  alookup s.meta c

/-- Embeds `SmartInventory.store_key`: looks up the priority
(`ContactNotRegisteredError` otherwise), reads the cap, fails with
`BudgetExceededError(contact, tier, 0, 0)` when the cap is 0, fails with
`BudgetExceededError(contact, tier, current, cap)` when `current >= cap`,
and otherwise commits the entry hash and the `zadd` of
`key_id -> fetched_at = now` into the tier index in one transaction. -/
def store_key (s : InvState) (c k : String) (t : Tier)
    (publicKey signature : String) (now : Nat) : Except InvError (Bool × InvState) :=
  match getPriority s c with
  | none => .error (.contactNotRegistered c)
  | some p =>
    let cap := BUDGET_CAPS p t
    if cap = 0 then .error (.budgetExceeded c t 0 0)
    else
      let current := (idxOf s c t).length
      if cap ≤ current then .error (.budgetExceeded c t current cap)
      else
        .ok (true, { s with
          recs := aupdate s.recs (c, k) ⟨c, k, t, publicKey, signature, now⟩,
          idx := aupdate s.idx (c, t) (zadd (idxOf s c t) k now) })

/-- Embeds `SmartInventory._pop_from_tier`: `zpopmin` the tier index
(returning nothing on an empty index), then read and delete the popped
member's entry record; a popped member without a record yields nothing
but the pop is already committed. -/
def popFromTier (s : InvState) (c : String) (t : Tier) :
    Option InventoryEntry × InvState :=
  match idxOf s c t with
  | [] => (none, s)
  | (k, _) :: rest =>
    let s1 : InvState := { s with idx := aupdate s.idx (c, t) rest }
    match alookup s1.recs (c, k) with
    | none => (none, s1)
    | some e => (some e, { s1 with recs := aremove s1.recs (c, k) })

/-- The tier attempt order of `select_coin`:
`[desired_tier] + TIER_FALLBACK[desired_tier]`. -/
def tiersToTry (t : Tier) : List Tier := t :: TIER_FALLBACK t

/-- Rewrite of the `meta.last_msg_at = now` hash write done by
`select_coin` on a successful pop. -/
def touchLastMsg (s : InvState) (c : String) (now : Nat) : InvState :=
  match alookup s.meta c with
  | some m => { s with meta := aupdate s.meta c { m with last_msg_at := now } }
  | none => s

/-- The tier loop of `SmartInventory.select_coin`, instrumented to also
report which tier index the returned entry was popped from (the
uninstrumented operation is `select_coin` below). -/
def selectLoop (c : String) (now : Nat) :
    InvState → List Tier → Option (InventoryEntry × Tier) × InvState
  | s, [] => (none, s)
  | s, t :: rest =>
    match popFromTier s c t with
    | (some e, s') => (some (e, t), touchLastMsg s' c now)
    | (none, s') => selectLoop c now s' rest

/-- Embeds `SmartInventory.select_coin` with the popped-from tier
attached: requires the contact to be registered, then attempts
`tiersToTry desired_tier` in order. -/
def select_coin_src (s : InvState) (c : String) (desired : Tier) (now : Nat) :
    Except InvError (Option (InventoryEntry × Tier) × InvState) :=
  match getPriority s c with
  | none => .error (.contactNotRegistered c)
  | some _ => .ok (selectLoop c now s (tiersToTry desired))

/-- Embeds `SmartInventory.select_coin` (entry only, as the source returns it). -/
def select_coin (s : InvState) (c : String) (desired : Tier) (now : Nat) :
    Except InvError (Option InventoryEntry × InvState) :=
  (select_coin_src s c desired now).map (fun r => (r.1.map Prod.fst, r.2))

/-- Embeds `SmartInventory.consume_key`: looks up the entry to learn its
tier, returns `false` when absent, otherwise deletes the record and
removes the index membership. -/
def consume_key (s : InvState) (c k : String) : Bool × InvState :=
  match alookup s.recs (c, k) with
  | none => (false, s)
  | some e =>
    (true, { s with
      recs := aremove s.recs (c, k),
      idx := aupdate s.idx (c, e.coin_category)
        (aremove (idxOf s c e.coin_category) k) })

/-- One tier of `SmartInventory._trim_excess`: when the index holds more
than `cap` members, `zpopmax` the excess (the highest-scored members, the
tail of the ascending list) and delete their records. -/
def trimTier (s : InvState) (c : String) (t : Tier) (cap : Nat) : Nat × InvState :=
  let l := idxOf s c t
  if l.length ≤ cap then (0, s)
  else
    let removed := l.drop cap
    let s1 : InvState := { s with idx := aupdate s.idx (c, t) (l.take cap) }
    (removed.length, { s1 with
      recs := aremoveAll s1.recs (removed.map (fun kv => (c, kv.1))) })

/-- Embeds `SmartInventory._trim_excess`: trim every tier to the new
priority's caps, returning the total evicted. -/
def trimExcess (s : InvState) (c : String) (p : Priority) : Nat × InvState :=
  let (n1, s1) := trimTier s c GOLD (BUDGET_CAPS p GOLD)
  let (n2, s2) := trimTier s1 c SILVER (BUDGET_CAPS p SILVER)
  let (n3, s3) := trimTier s2 c BRONZE (BUDGET_CAPS p BRONZE)
  (n1 + n2 + n3, s3)

/-- Embeds `SmartInventory.set_contact_priority`: requires the contact to
exist, returns `true` without changes when the priority is unchanged,
otherwise updates the priority and — iff the new priority ranks strictly
lower (`new_rank > old_rank`) — trims the excess. -/
def set_contact_priority (s : InvState) (c : String) (p : Priority) :
    Except InvError (Bool × InvState) :=
  match alookup s.meta c with
  | none => .error (.contactNotRegistered c)
  | some m =>
    if m.priority = p then .ok (true, s)
    else
      let s1 : InvState := { s with meta := aupdate s.meta c { m with priority := p } }
      if priorityRank m.priority < priorityRank p then .ok (true, (trimExcess s1 c p).2)
      else .ok (true, s1)

/-- Embeds the single-contact branch of `SmartInventory.get_inventory`:
per-tier cardinalities plus the contact's priority. -/
def get_inventory_summary (s : InvState) (c : String) :
    Except InvError InventorySummary :=
  match alookup s.meta c with
  | none => .error (.contactNotRegistered c)
  | some m =>
    .ok ⟨c, (idxOf s c GOLD).length, (idxOf s c SILVER).length,
      (idxOf s c BRONZE).length, m.priority⟩

/-- Embeds `SmartInventory.has_keys_for`. -/
def has_keys_for (s : InvState) (c : String) : Bool :=
  decide (0 < (idxOf s c GOLD).length) || decide (0 < (idxOf s c SILVER).length)
    || decide (0 < (idxOf s c BRONZE).length)

/-! Inventory operation traces.  A trace is a list of public inventory
operations; an operation that raises leaves the keyspace as it was (every
raise in the source happens before its mutating pipeline). -/
/-- One public Smart Inventory operation with its call arguments. -/
inductive InvOp where
  | register (c : String) (p : Priority) (displayName : String) (now : Nat)
  | store (c k : String) (t : Tier) (publicKey signature : String) (now : Nat)
  | select (c : String) (t : Tier) (now : Nat)
  | consume (c k : String)
  | setPriority (c : String) (p : Priority)
deriving Repr

/-- The keyspace after one operation (the state after a raise is the
state before the call). -/
def applyOp (s : InvState) : InvOp → InvState
  | .register c p d now => (register_contact s c p d now).2
  | .store c k t pk sig now =>
    match store_key s c k t pk sig now with
    | .ok (_, s') => s'
    | .error _ => s
  | .select c t now =>
    match select_coin s c t now with
    | .ok (_, s') => s'
    | .error _ => s
  | .consume c k => (consume_key s c k).2
  | .setPriority c p =>
    match set_contact_priority s c p with
    | .ok (_, s') => s'
    | .error _ => s

/-- The keyspace after a trace of operations from a starting state. -/
def invExec (s : InvState) (ops : List InvOp) : InvState :=
  ops.foldl applyOp s

/-! The C1 budget invariant and its preservation. -/
/-- The spec's Invariant I2: every registered contact's tier index is
within the cap of its current priority, and unregistered contacts have
empty tier indexes. -/
def BudgetInv (s : InvState) : Prop :=
  ∀ c t,
    (∀ p, getPriority s c = some p → (idxOf s c t).length ≤ BUDGET_CAPS p t) ∧
    (getPriority s c = none → idxOf s c t = [])

/-- An operation is cap-safe when it is not a `set_contact_priority`
upgrade that shrinks some tier cap (the trim runs only on downgrades, so
such an upgrade — concretely MATE → BESTIE — is the one step that can
leave an index above its cap). -/
def capSafeOp (s : InvState) : InvOp → Bool
  | .setPriority c p =>
    match getPriority s c with
    | some old =>
      decide (priorityRank old ≤ priorityRank p) ||
        (decide (BUDGET_CAPS old GOLD ≤ BUDGET_CAPS p GOLD) &&
         decide (BUDGET_CAPS old SILVER ≤ BUDGET_CAPS p SILVER) &&
         decide (BUDGET_CAPS old BRONZE ≤ BUDGET_CAPS p BRONZE))
    | none => true
  | _ => true

/-- A trace is cap-safe when each of its operations is, in the state it
runs in. -/
def capSafe : InvState → List InvOp → Bool
  | _, [] => true
  | s, op :: rest => capSafeOp s op && capSafe (applyOp s op) rest

/-! Secure Vault (`AQM_Database/vault.py`).  The vault keyspace (logical
DB 0) holds the `vault:v1:key:{key_id}` hashes and the `vault:v1:stats`
counter hash.  Counters are redis `HINCRBY` integers, hence `Int`.  The
`EXPIRE` calls (`VAULT_KEY_TTL_SECONDS`, `VAULT_BURN_GRACE_SECONDS`) are
real-time passive expiry and are not modelled. -/
/-- Private coin entry (`types.VaultEntry`). -/
structure VaultEntry where
  key_id : String
  coin_category : Tier
  encrypted_blob : String
  encryption_iv : String
  auth_tag : String
  status : Status
  created_at : Nat
  coin_version : String
deriving DecidableEq, Repr

/-- Vault counters (`types.VaultStats`). -/
structure VaultStats where
  active_gold : Int
  active_silver : Int
  active_bronze : Int
  total_burned : Int
  total_expired : Int
deriving DecidableEq, Repr

/-- The vault keyspace. -/
structure VaultState where
  entries : List (String × VaultEntry)
  stats : VaultStats
deriving DecidableEq, Repr

/-- Empty vault keyspace (absent counters read as 0). -/
def vaultInit : VaultState := ⟨[], ⟨0, 0, 0, 0, 0⟩⟩

/-- Vault errors (`errors.py`). -/
inductive VaultError where
  | keyAlreadyExists (key_id : String)
  | keyNotFound (key_id : String)
  | keyAlreadyBurned (key_id : String)
deriving DecidableEq, Repr

/-- The `HINCRBY vault:v1:stats active_<tier> d` counter update. -/
def bumpActive (st : VaultStats) (t : Tier) (d : Int) : VaultStats :=
  match t with
  | GOLD => { st with active_gold := st.active_gold + d }
  | SILVER => { st with active_silver := st.active_silver + d }
  | BRONZE => { st with active_bronze := st.active_bronze + d }

/-- Embeds `SecureVault.store_key`: rejects an existing `key_id` with
`KeyAlreadyExistsError`, otherwise commits the entry hash with
`status = ACTIVE`, `created_at = now` and the `active_<tier>` increment in
one transaction. -/
def vault_store_key (s : VaultState) (k : String) (t : Tier)
    (blob iv tag ver : String) (now : Nat) : Except VaultError (Bool × VaultState) :=
  match alookup s.entries k with
  | some _ => .error (.keyAlreadyExists k)
  | none =>
    .ok (true, { entries := aupdate s.entries k ⟨k, t, blob, iv, tag, ACTIVE, now, ver⟩,
                 stats := bumpActive s.stats t 1 })

/-- Embeds `SecureVault.burn_key`: `KeyNotFoundError` when the hash is
absent, `KeyAlreadyBurnedError` when the status is already `BURNED`,
otherwise commits `status = BURNED`, `active_<tier> -= 1` and
`total_burned += 1` in one transaction. -/
def burn_key (s : VaultState) (k : String) : Except VaultError (Bool × VaultState) :=
  match alookup s.entries k with
  | none => .error (.keyNotFound k)
  | some e =>
    if e.status = BURNED then .error (.keyAlreadyBurned k)
    else
      .ok (true, { entries := aupdate s.entries k { e with status := BURNED },
                   stats :=
                     let st := bumpActive s.stats e.coin_category (-1)
                     { st with total_burned := st.total_burned + 1 } })

/-- Embeds `SecureVault.fetch_key`: returns the entry iff it exists and is
not `BURNED`. -/
def fetch_key (s : VaultState) (k : String) : Option VaultEntry :=
  match alookup s.entries k with
  | none => none
  | some e => if e.status = BURNED then none else some e

/-- Embeds the tier-filtered branch of `SecureVault.count_active`
(a counter read, not a scan). -/
def count_active (s : VaultState) (t : Tier) : Int :=
  match t with
  | GOLD => s.stats.active_gold
  | SILVER => s.stats.active_silver
  | BRONZE => s.stats.active_bronze

/-- Embeds `SecureVault.get_stats`. -/
def get_stats (s : VaultState) : VaultStats := s.stats

/-- Trace for the C1 counterexample: MATE stores two BRONZE keys (MATE
BRONZE cap is 4), then is upgraded to BESTIE (BRONZE cap 1); the upgrade
runs no trim. -/
def c1Trace : List InvOp :=
  [.register "a" MATE "" 0,
   .store "a" "b0" BRONZE "p" "g" 1,
   .store "a" "b1" BRONZE "p" "g" 2,
   .setPriority "a" BESTIE]

/-- A cap-safe trace used by the C1 witness. -/
def c1SafeTrace : List InvOp :=
  [.register "a" BESTIE "" 0,
   .store "a" "g0" GOLD "p" "g" 1,
   .store "a" "g1" GOLD "p" "g" 2,
   .setPriority "a" MATE]

/-- A keyspace with a MATE contact, for the cap-0 conjunct of the C1 witness. -/
def c1ZeroState : InvState := invExec invInit [.register "m" MATE "" 0]

/-- A keyspace with a BESTIE contact at the BRONZE cap, for the at-cap
conjunct of the C1 witness. -/
def c1FullState : InvState :=
  invExec invInit [.register "b" BESTIE "" 0, .store "b" "b0" BRONZE "p" "g" 1]

/-- A vault holding one ACTIVE GOLD entry, for the C3 witness
(the keyspace produced by one successful `store_key`). -/
def c3Vault : VaultState :=
  ⟨[("k", ⟨"k", GOLD, "blob", "iv", "tag", ACTIVE, 5, "kyber768_v1"⟩)],
   ⟨1, 0, 0, 0, 0⟩⟩

/-- The entry cached in `c3Vault`. -/
def c3Entry : VaultEntry := ⟨"k", GOLD, "blob", "iv", "tag", ACTIVE, 5, "kyber768_v1"⟩

/-! Well-formedness of an inventory keyspace: the spec's Invariant I1
(index membership is equivalent to an entry record of that tier, with the
index score equal to the record's `fetched_at`), sorted duplicate-free
indexes, and duplicate-free record keys.  `store_key` with a `key_id`
already cached under a different tier violates I1 — the basis of the C4
and C5 counterexamples — so the amended theorems assume it. -/
/-- Invariant I1, score and tier agreement included. -/
def IdxRecLinked (s : InvState) : Prop :=
  ∀ p ∈ s.idx, ∀ kv ∈ p.2,
    ((alookup s.recs (p.1.1, kv.1)).map
      (fun e => (e.key_id, e.coin_category, e.fetched_at))) = some (kv.1, p.1.2, kv.2)

/-- Well-formed inventory keyspace. -/
def InvWF (s : InvState) : Prop :=
  IdxRecLinked s ∧ (∀ p ∈ s.idx, ZSorted p.2) ∧
    (∀ p ∈ s.idx, (zmembers p.2).Nodup) ∧ (s.recs.map Prod.fst).Nodup ∧
    (s.idx.map Prod.fst).Nodup

instance : DecidablePred IdxRecLinked := fun s => by
  unfold IdxRecLinked
  infer_instance

instance : DecidablePred InvWF := fun s => by
  unfold InvWF
  infer_instance

/-! Coin Inventory Server (`AQM_Database/aqm_server/coin_inventory.py`).
The PostgreSQL `coin_inventory` table is a list of rows in insertion
order; `record_id` is the serial primary key.  UUIDs are opaque strings.
Each transaction is one atomic step (transactions serialise; `FOR UPDATE
SKIP LOCKED` concurrency is modelled by the serial interleaving of
`fetch` steps in a trace).  `NOW()` is the explicit `now` argument, in
milliseconds. -/
/-- One row of the `coin_inventory` table. -/
structure CoinRow where
  record_id : Nat
  user_id : String
  key_id : String
  coin_category : Tier
  public_key_blob : String
  signature_blob : String
  uploaded_at : Nat
  fetched_by : Option String
  fetched_at : Option Nat
deriving DecidableEq, Repr

/-- An upload request item (`aqm_shared.types.CoinUpload`). -/
structure CoinUpload where
  key_id : String
  coin_category : Tier
  public_key_blob : String
  signature_blob : String
deriving DecidableEq, Repr

/-- A fetched coin (`aqm_shared.types.CoinRecord`). -/
structure CoinRecord where
  key_id : String
  coin_category : Tier
  public_key_blob : String
  signature_blob : String
deriving DecidableEq, Repr

/-- The server database: the `coin_inventory` rows in insertion order and
the next serial `record_id`. -/
structure SrvState where
  rows : List CoinRow
  next_id : Nat
deriving DecidableEq, Repr

/-- Empty server database. -/
def srvInit : SrvState := ⟨[], 0⟩

/-- Row order used by `ORDER BY uploaded_at ASC`. -/
def rowLe (a b : CoinRow) : Prop := a.uploaded_at ≤ b.uploaded_at

instance : DecidableRel rowLe := fun a b => by
  unfold rowLe; infer_instance

/-- Stable insertion into a list sorted by `uploaded_at` (ties keep the
earlier-inserted row first, i.e. the smaller `record_id` for rows taken
from the table in insertion order). -/
def insertRow (r : CoinRow) : List CoinRow → List CoinRow
  | [] => [r]
  | h :: t => if h.uploaded_at ≤ r.uploaded_at then h :: insertRow r t else r :: h :: t

/-- Sort rows by `uploaded_at` ascending (stable). -/
def sortRows (l : List CoinRow) : List CoinRow :=
  l.foldl (fun acc r => insertRow r acc) []

/-- The unclaimed rows of `(user_id, coin_category)`: the SQL filter
`user_id = $1 AND coin_category = $2 AND fetched_by IS NULL`. -/
def unclaimedFor (s : SrvState) (uid : String) (t : Tier) : List CoinRow :=
  s.rows.filter
    (fun r => decide (r.user_id = uid ∧ r.coin_category = t ∧ r.fetched_by = none))

/-- One iteration of the `upload_coins` insert loop: the
`INSERT ... ON CONFLICT (user_id, key_id) DO NOTHING RETURNING record_id`
statement, threading the inserted count. -/
def uploadStep (uid : String) (now : Nat) (acc : Nat × SrvState)
    (coin : CoinUpload) : Nat × SrvState :=
  if acc.2.rows.any (fun r => decide (r.user_id = uid ∧ r.key_id = coin.key_id))
  then acc
  else (acc.1 + 1,
    ⟨acc.2.rows ++ [⟨acc.2.next_id, uid, coin.key_id, coin.coin_category,
      coin.public_key_blob, coin.signature_blob, now, none, none⟩],
     acc.2.next_id + 1⟩)

/-- Embeds `CoinInventoryServer.upload_coins`: one transaction inserting
each coin as a new row with `uploaded_at = now`, skipping `(user_id,
key_id)` conflicts, returning the number actually inserted. -/
def upload_coins (s : SrvState) (uid : String) (coins : List CoinUpload)
    (now : Nat) : Nat × SrvState :=
  coins.foldl (uploadStep uid now) (0, s)

/-- Embeds `CoinInventoryServer.fetch_coins`: in one transaction, select
the first `cnt` unclaimed rows of `(target, t)` ordered by `uploaded_at`
ascending, mark each with `fetched_by = requester, fetched_at = now`, and
return them. -/
def fetch_coins (s : SrvState) (target requester : String) (t : Tier)
    (cnt : Nat) (now : Nat) : List CoinRow × SrvState :=
  let selected := (sortRows (unclaimedFor s target t)).take cnt
  let ids := selected.map (·.record_id)
  (selected,
   { s with rows := s.rows.map (fun r =>
      if r.record_id ∈ ids
      then { r with fetched_by := some requester, fetched_at := some now }
      else r) })

/-- The wire mapping of a fetched row, as built by `fetch_coins`
(`coin_category` is the request argument, as in the source). -/
def toCoinRecord (t : Tier) (r : CoinRow) : CoinRecord :=
  ⟨r.key_id, t, r.public_key_blob, r.signature_blob⟩

/-- Embeds `CoinInventoryServer.get_inventory_count` for one tier. -/
def srv_count (s : SrvState) (uid : String) (t : Tier) : Nat :=
  (unclaimedFor s uid t).length

/-- Embeds `CoinInventoryServer.purge_stale`: delete unclaimed rows older
than `now − max_age_days`. -/
def purge_stale (s : SrvState) (maxAgeDays now : Nat) : Nat × SrvState :=
  let cond : CoinRow → Bool := fun r =>
    match r.fetched_by with
    | none => decide (r.uploaded_at < now - maxAgeDays * 86400000)
    | some _ => false
  ((s.rows.filter cond).length, { s with rows := s.rows.filter (fun r => !(cond r)) })

/-- Embeds `CoinInventoryServer.hard_delete_fetched`: delete claimed rows
whose `fetched_at` is older than `now − grace_hours`. -/
def hard_delete_fetched (s : SrvState) (graceHours now : Nat) : Nat × SrvState :=
  let cond : CoinRow → Bool := fun r =>
    match r.fetched_by, r.fetched_at with
    | some _, some fa => decide (fa < now - graceHours * 3600000)
    | _, _ => false
  ((s.rows.filter cond).length, { s with rows := s.rows.filter (fun r => !(cond r)) })

/-- One server operation with its call arguments. -/
inductive SrvOp where
  | upload (uid : String) (coins : List CoinUpload) (now : Nat)
  | fetch (target requester : String) (t : Tier) (cnt : Nat) (now : Nat)
  | purge (maxAgeDays now : Nat)
  | hardDelete (graceHours now : Nat)
deriving Repr

/-- The database after one operation. -/
def srvStep (s : SrvState) : SrvOp → SrvState
  | .upload uid coins now => (upload_coins s uid coins now).2
  | .fetch target requester t cnt now => (fetch_coins s target requester t cnt now).2
  | .purge d now => (purge_stale s d now).2
  | .hardDelete g now => (hard_delete_fetched s g now).2

/-- The database after a trace of operations. -/
def srvExec (s : SrvState) (ops : List SrvOp) : SrvState :=
  ops.foldl srvStep s

/-- The row batches returned by the `fetch` operations of a trace, in
order. -/
def fetchResults (s : SrvState) : List SrvOp → List (List CoinRow)
  | [] => []
  | op :: rest =>
    match op with
    | .fetch target requester t cnt now =>
      (fetch_coins s target requester t cnt now).1 :: fetchResults (srvStep s op) rest
    | _ => fetchResults (srvStep s op) rest

/-- Database sanity: serial `record_id`s are distinct and below `next_id`. -/
def SrvWF (s : SrvState) : Prop :=
  (s.rows.map (·.record_id)).Nodup ∧ ∀ r ∈ s.rows, r.record_id < s.next_id

instance : DecidablePred SrvWF := fun s => by
  unfold SrvWF
  infer_instance

/-- A record id all of whose rows (at most one under `SrvWF`) are marked
fetched: such a row is invisible to every later fetch. -/
def Claimed (s : SrvState) (rid : Nat) : Prop :=
  ∀ row ∈ s.rows, row.record_id = rid → row.fetched_by ≠ none

/-- Upload batch for the C2 witness. -/
def c2Coins : List CoinUpload :=
  [⟨"ka", SILVER, "pa", "ga"⟩, ⟨"kb", SILVER, "pb", "gb"⟩, ⟨"kc", SILVER, "pc", "gc"⟩]

/-- Trace for the C2 witness: an upload and two fetches. -/
def c2Trace : List SrvOp :=
  [.upload "bob" c2Coins 1,
   .fetch "bob" "alice" SILVER 2 2,
   .fetch "bob" "carol" SILVER 2 3]

/-- Server state for the C2 witness's per-call conjuncts. -/
def c2State : SrvState := srvExec srvInit [.upload "bob" c2Coins 1]

/-! Bridge (`AQM_Database/bridge.py`).  The bridge composes the server
and the local inventory; its event-loop interleaving reduces to the
sequential composition of the two calls.  The `SmartInventory` it calls is
the repository's `AQM_Database/inventory.py` embedded above. -/
/-- The store loop of `fetch_and_cache`: store each fetched coin in order,
break on `BudgetExceededError` (returning the prefix cached so far), and
propagate any other exception. -/
def cacheLoop (inv : InvState) (c : String) (now : Nat) :
    List CoinRecord → Except InvError (List CoinRecord × InvState)
  | [] => .ok ([], inv)
  | coin :: rest =>
    match store_key inv c coin.key_id coin.coin_category coin.public_key_blob
      coin.signature_blob now with
    | .ok (_, inv1) =>
      match cacheLoop inv1 c now rest with
      | .ok (cs, invF) => .ok (coin :: cs, invF)
      | .error e => .error e
    | .error (.budgetExceeded _ _ _ _) => .ok ([], inv)
    | .error e => .error e

/-- Embeds `bridge.fetch_and_cache`: claim up to `cnt` coins on the
server, then store them into the local inventory in order, stopping on
the first `BudgetExceededError`. -/
def fetch_and_cache (srv : SrvState) (inv : InvState) (c : String)
    (target requester : String) (t : Tier) (cnt now : Nat) :
    Except InvError (List CoinRecord × SrvState × InvState) :=
  let fp := fetch_coins srv target requester t cnt now
  match cacheLoop inv c now (fp.1.map (toCoinRecord t)) with
  | .ok (cached, invF) => .ok (cached, fp.2, invF)
  | .error e => .error e

/-- Sequential stores with no break: the reference used to state that the
bridge commits exactly the returned prefix. -/
def storeSeq (inv : InvState) (c : String) (now : Nat) :
    List CoinRecord → Except InvError InvState
  | [] => .ok inv
  | coin :: rest =>
    match store_key inv c coin.key_id coin.coin_category coin.public_key_blob
      coin.signature_blob now with
    | .ok (_, inv1) => storeSeq inv1 c now rest
    | .error e => .error e

/-- Server scenario for the bridge run: two BRONZE coins uploaded by the
target user. -/
def c6Srv : SrvState :=
  (upload_coins srvInit "target"
    [⟨"k1", Tier.BRONZE, "p1", "s1"⟩, ⟨"k2", Tier.BRONZE, "p2", "s2"⟩] 10).2

/-- Inventory scenario for the bridge run: `bob` registered `BESTIE`
(BRONZE cap 1). -/
def c6Inv : InvState := (register_contact invInit "bob" .BESTIE "Bob" 0).2

/-- The successful prefix of the bridge run: only the first coin fits the
BRONZE cap of 1. -/
def c6Cached : List CoinRecord := [⟨"k1", Tier.BRONZE, "p1", "s1"⟩]

/-- Server state after the bridge run claimed both coins. -/
def c6Srv2 : SrvState := (fetch_coins c6Srv "target" "alice" Tier.BRONZE 2 20).2

/-- Inventory state after the bridge run stored the first coin. -/
def c6Inv2 : InvState :=
  match store_key c6Inv "bob" "k1" Tier.BRONZE "p1" "s1" 20 with
  | .ok (_, s) => s
  | .error _ => c6Inv

/-- Per-tier fetched counts returned by `sync_inventory` (the
`{"GOLD": _, "SILVER": _, "BRONZE": _}` dictionary, in tier order). -/
structure TierCounts where
  gold : Nat
  silver : Nat
  bronze : Nat
deriving DecidableEq, Repr

/-- One tier iteration of the `sync_inventory` loop: skip with a zero
count when the deficit is not positive, otherwise fetch and cache exactly
the deficit and report how many coins were cached. -/
def syncTier (srv : SrvState) (inv : InvState) (c target requester : String)
    (t : Tier) (deficit : Int) (now : Nat) :
    Except InvError (Nat × SrvState × InvState) :=
  if deficit ≤ 0 then .ok (0, srv, inv)
  else
    match fetch_and_cache srv inv c target requester t deficit.toNat now with
    | .ok (cached, srv2, inv2) => .ok (cached.length, srv2, inv2)
    | .error e => .error e

/-- Embeds `bridge.sync_inventory`: an unregistered contact returns zero
counts with nothing fetched; otherwise the per-tier deficits against the
contact's caps are computed once from the initial summary and the tiers
are topped up in the order GOLD, SILVER, BRONZE. -/
def sync_inventory (srv : SrvState) (inv : InvState)
    (c target requester : String) (now : Nat) :
    Except InvError (TierCounts × SrvState × InvState) :=
  match get_contact_meta inv c with
  | none => .ok (⟨0, 0, 0⟩, srv, inv)
  | some m =>
    match get_inventory_summary inv c with
    | .ok summary =>
      match syncTier srv inv c target requester GOLD
          ((BUDGET_CAPS m.priority GOLD : Int) - (summary.gold_count : Int)) now with
      | .ok (ng, srv1, inv1) =>
        match syncTier srv1 inv1 c target requester SILVER
            ((BUDGET_CAPS m.priority SILVER : Int) - (summary.silver_count : Int)) now with
        | .ok (ns, srv2, inv2) =>
          match syncTier srv2 inv2 c target requester BRONZE
              ((BUDGET_CAPS m.priority BRONZE : Int) - (summary.bronze_count : Int)) now with
          | .ok (nb, srv3, inv3) => .ok (⟨ng, ns, nb⟩, srv3, inv3)
          | .error e => .error e
        | .error e => .error e
      | .error e => .error e
    | .error e => .error e

/-- The per-tier contract of one `sync_inventory` iteration, stated with
the deficit `max(0, cap - current)`: a zero deficit fetches nothing and
changes nothing; a positive one runs `fetch_and_cache` for exactly the
deficit and reports the cached count. -/
def c7TierStep (srv : SrvState) (inv : InvState) (c target requester : String)
    (t : Tier) (cap cur now : Nat) (n : Nat) (srv2 : SrvState)
    (inv2 : InvState) : Prop :=
  (max 0 ((cap : Int) - (cur : Int)) = 0 ∧ n = 0 ∧ srv2 = srv ∧ inv2 = inv) ∨
  (0 < max 0 ((cap : Int) - (cur : Int)) ∧
    ∃ cached, fetch_and_cache srv inv c target requester t
        (max 0 ((cap : Int) - (cur : Int))).toNat now = .ok (cached, srv2, inv2) ∧
      n = cached.length)

/-- Server scenario for the sync run: one SILVER coin uploaded by the
target user. -/
def c7Srv : SrvState :=
  (upload_coins srvInit "target" [⟨"sk1", Tier.SILVER, "p", "s"⟩] 10).2

/-- Inventory scenario for the sync run: `bob` registered `MATE`
(GOLD cap 0, SILVER cap 6, BRONZE cap 4), nothing cached. -/
def c7Inv : InvState := (register_contact invInit "bob" .MATE "Bob" 0).2

/-- A `STRANGER` contact: every cap is 0, so the budget is at
equilibrium with an empty inventory. -/
def c7InvStr : InvState :=
  (register_contact invInit "carol" .STRANGER "Carol" 0).2

/-- Server state after the sync run: the SILVER fetch claimed the one
coin, the BRONZE fetch claimed nothing. -/
def c7Srv3 : SrvState :=
  (fetch_coins (fetch_coins c7Srv "target" "alice" Tier.SILVER 6 20).2
    "target" "alice" Tier.BRONZE 4 20).2

/-- Inventory state after the sync run stored the one SILVER coin. -/
def c7Inv3 : InvState :=
  match store_key c7Inv "bob" "sk1" Tier.SILVER "p" "s" 20 with
  | .ok (_, s) => s
  | .error _ => c7Inv

/-! Garbage collector (`aqm_db/garbage_collector.py`), running against
the `SmartInventory` keyspaces.  The Redis `SCAN` over meta keys is the
list of registered contacts; the collector's writes never add or remove
meta keys, so the initial key list is the scan. -/
/-- GC report (`aqm_shared.types.GCResult`). -/
structure GCResult where
  contacts_cleaned : Nat
  keys_deleted : Nat
  bytes_freed : Nat
deriving DecidableEq, Repr

/-- Embeds `GarbageCollector._is_inactive` (timestamps in milliseconds;
the cutoff `now - inactive_days*86400*1000` truncates at zero, and a
`last_msg_at <` comparison against a negative cutoff is false anyway). -/
def isInactive (last_msg_at inactive_days now : Nat) : Bool :=
  decide (last_msg_at < now - inactive_days * 86400000)

/-- One tier of `GarbageCollector._delete_all_keys_for_contact`: read the
tier index, skip when empty, otherwise delete every member's record and
the index itself, counting the members. -/
def gcTier (c : String) (acc : Nat × InvState) (t : Tier) : Nat × InvState :=
  if (idxOf acc.2 c t).isEmpty then acc
  else
    (acc.1 + (idxOf acc.2 c t).length,
     { acc.2 with
       recs := aremoveAll acc.2.recs ((idxOf acc.2 c t).map (fun kv => (c, kv.1))),
       idx := aremove acc.2.idx (c, t) })

/-- Embeds `GarbageCollector._delete_all_keys_for_contact`. -/
def deleteAllKeysForContact (s : InvState) (c : String) : Nat × InvState :=
  [GOLD, SILVER, BRONZE].foldl (gcTier c) (0, s)

/-- One contact of the `garbage_collect` scan loop: skip a missing or
active contact; otherwise add the summary's byte total, delete all the
contact's keys, reset the priority to `STRANGER` and count the contact.
(The priority reset cannot raise here because the meta hash was just
read; the dead error branch keeps the deletion state.) -/
def gcStep (days now : Nat) (acc : GCResult × InvState) (c : String) :
    GCResult × InvState :=
  match get_contact_meta acc.2 c with
  | none => acc
  | some m =>
    if isInactive m.last_msg_at days now then
      (⟨acc.1.contacts_cleaned + 1,
        acc.1.keys_deleted + (deleteAllKeysForContact acc.2 c).1,
        acc.1.bytes_freed +
          ((idxOf acc.2 c GOLD).length * COIN_SIZE_BYTES GOLD +
           (idxOf acc.2 c SILVER).length * COIN_SIZE_BYTES SILVER +
           (idxOf acc.2 c BRONZE).length * COIN_SIZE_BYTES BRONZE)⟩,
       match set_contact_priority (deleteAllKeysForContact acc.2 c).2 c
           Priority.STRANGER with
       | .ok (_, s2) => s2
       | .error _ => (deleteAllKeysForContact acc.2 c).2)
    else acc

/-- Embeds `GarbageCollector.garbage_collect`: fold the per-contact step
over the registered contacts. -/
def garbage_collect (s : InvState) (days now : Nat) : GCResult × InvState :=
  (s.meta.map Prod.fst).foldl (gcStep days now) (⟨0, 0, 0⟩, s)

/-- One contact of the `dry_run` scan loop: the same inactivity test and
summary arithmetic, with no writes. -/
def dryStep (days now : Nat) (s : InvState) (acc : GCResult) (c : String) :
    GCResult :=
  match get_contact_meta s c with
  | none => acc
  | some m =>
    if isInactive m.last_msg_at days now then
      ⟨acc.contacts_cleaned + 1,
       acc.keys_deleted +
         ((idxOf s c GOLD).length + (idxOf s c SILVER).length +
          (idxOf s c BRONZE).length),
       acc.bytes_freed +
         ((idxOf s c GOLD).length * COIN_SIZE_BYTES GOLD +
          (idxOf s c SILVER).length * COIN_SIZE_BYTES SILVER +
          (idxOf s c BRONZE).length * COIN_SIZE_BYTES BRONZE)⟩
    else acc

/-- Embeds `GarbageCollector.dry_run`: the same scan and computation
issuing only read commands (`SCAN`, `HGETALL`, `ZCARD`), so the keyspace
comes back as it went in. -/
def dry_run (s : InvState) (days now : Nat) : GCResult × InvState :=
  ((s.meta.map Prod.fst).foldl (dryStep days now s) ⟨0, 0, 0⟩, s)

/-- GC scenario: `old` registered at time 0 with one SILVER key cached,
`fresh` registered at the collection time. -/
def c9Inv : InvState :=
  match store_key
      (register_contact (register_contact invInit "old" .MATE "Old" 0).2
        "fresh" .MATE "Fresh" 990000000000).2
      "old" "k1" Tier.SILVER "p" "s" 5 with
  | .ok (_, s) => s
  | .error _ => invInit

/-- A run of successive `select_coin` calls for one contact, with the
popped-from tier attached to each result (a raised call leaves the
keyspace unchanged, as in the source). -/
def runSelects (c : String) :
    InvState → List (Tier × Nat) → List (Option (InventoryEntry × Tier)) × InvState
  | s, [] => ([], s)
  | s, (t, now) :: rest =>
    match select_coin_src s c t now with
    | .error _ =>
      let r := runSelects c s rest
      (none :: r.1, r.2)
    | .ok (o, s1) =>
      let r := runSelects c s1 rest
      (o :: r.1, r.2)

/-- The entries of a run that were drawn (popped) from a given tier. -/
def drawnFrom (rs : List (Option (InventoryEntry × Tier))) (t : Tier) :
    List InventoryEntry :=
  rs.filterMap (fun o => match o with
    | some (e, t') => if t' = t then some e else none
    | none => none)

/-- The key ids of every entry a run returned. -/
def returnedKeys (rs : List (Option (InventoryEntry × Tier))) : List String :=
  rs.filterMap (fun o => o.map (fun x => x.1.key_id))

/-- Keyspace for the C4 counterexample and the C4 witness' empty-tier
reads: "bob" re-stores key "k" under GOLD after caching it under BRONZE,
leaving a stale BRONZE index member whose record now says GOLD. -/
def c4State : InvState :=
  invExec invInit
    [.register "bob" BESTIE "" 0,
     .store "bob" "k" BRONZE "p1" "g1" 1,
     .store "bob" "k" GOLD "p2" "g2" 2]

/-- A well-formed keyspace for the C4 witness: "bob" holds one SILVER key
and nothing else. -/
def c4WFState : InvState :=
  invExec invInit
    [.register "bob" BESTIE "" 0,
     .store "bob" "s0" SILVER "p" "g" 1]

/-- Keyspace for the C5 counterexample: key "k" stored under SILVER at
time 1, key "k2" under SILVER at time 2, then "k" re-stored under GOLD at
time 5 (the SILVER index keeps the stale member "k" with score 1 while the
record's `fetched_at` is now 5). -/
def c5State : InvState :=
  invExec invInit
    [.register "bob" BESTIE "" 0,
     .store "bob" "k" SILVER "p1" "g1" 1,
     .store "bob" "k2" SILVER "p2" "g2" 2,
     .store "bob" "k" GOLD "p3" "g3" 5]

/-- A well-formed keyspace with two SILVER keys, for the C5 witness. -/
def c5WFState : InvState :=
  invExec invInit
    [.register "bob" BESTIE "" 0,
     .store "bob" "s0" SILVER "p" "g" 1,
     .store "bob" "s1" SILVER "p" "g" 2]

/-- A BESTIE contact with one cached GOLD key, for the C10 witness. -/
def c10State : InvState :=
  invExec invInit [.register "bob" BESTIE "" 0, .store "bob" "k" GOLD "p1" "g1" 1]

/-- A vault holding one ACTIVE GOLD entry, for the C10 witness. -/
def c10Vault : VaultState :=
  ⟨[("k", ⟨"k", GOLD, "blob", "iv", "tag", ACTIVE, 5, "kyber768_v1"⟩)],
   ⟨1, 0, 0, 0, 0⟩⟩

/-- The entry cached in `c10Vault`. -/
def c10VaultEntry : VaultEntry :=
  ⟨"k", GOLD, "blob", "iv", "tag", ACTIVE, 5, "kyber768_v1"⟩

/-- A BESTIE contact with three cached GOLD keys, for the C8 witness. -/
def c8State : InvState :=
  invExec invInit
    [.register "bob" BESTIE "" 0,
     .store "bob" "g0" GOLD "p" "g" 1,
     .store "bob" "g1" GOLD "p" "g" 2,
     .store "bob" "g2" GOLD "p" "g" 3]

/-- The meta record of "bob" in `c8State`. -/
def c8Meta : ContactMeta := ⟨"bob", BESTIE, 0, ""⟩

theorem alookup_aupdate_self {α β : Type} [DecidableEq α]
    (l : List (α × β)) (k : α) (v : β) : alookup (aupdate l k v) k = some v := by
  induction l with
  | nil => simp [aupdate, alookup]
  | cons hd tl ih =>
    obtain ⟨a, b⟩ := hd
    by_cases h : a = k <;> simp [aupdate, alookup, h, ih]

theorem alookup_aupdate_ne {α β : Type} [DecidableEq α]
    (l : List (α × β)) (k k' : α) (v : β) (h : k' ≠ k) :
    alookup (aupdate l k v) k' = alookup l k' := by
  induction l with
  | nil => simp [aupdate, alookup, Ne.symm h]
  | cons hd tl ih =>
    obtain ⟨a, b⟩ := hd
    by_cases hak : a = k
    · subst hak
      simp [aupdate, alookup, Ne.symm h]
    · by_cases hak' : a = k' <;> simp [aupdate, alookup, hak, hak', h, ih]

theorem alookup_aremove_ne {α β : Type} [DecidableEq α]
    (l : List (α × β)) (k k' : α) (h : k' ≠ k) :
    alookup (aremove l k) k' = alookup l k' := by
  induction l with
  | nil => simp [aremove]
  | cons hd tl ih =>
    obtain ⟨a, b⟩ := hd
    by_cases hak : a = k
    · subst hak
      simp [aremove, alookup, Ne.symm h]
    · by_cases hak' : a = k' <;> simp [aremove, alookup, hak, hak', h, ih]

theorem aremove_sublist {α β : Type} [DecidableEq α] (l : List (α × β)) (k : α) :
    (aremove l k).Sublist l := by
  induction l with
  | nil => simp [aremove]
  | cons hd tl ih =>
    obtain ⟨a, b⟩ := hd
    by_cases hak : a = k
    · rw [aremove, if_pos hak]
      exact List.sublist_cons_self _ _
    · rw [aremove, if_neg hak]
      exact ih.cons₂ (a, b)

theorem aremove_length_of_mem {α β : Type} [DecidableEq α]
    (l : List (α × β)) (k : α) (h : k ∈ l.map Prod.fst) :
    (aremove l k).length + 1 = l.length := by
  induction l with
  | nil => simp at h
  | cons hd tl ih =>
    obtain ⟨a, b⟩ := hd
    by_cases hak : a = k
    · simp [aremove, hak]
    · have hmem : k ∈ tl.map Prod.fst := by
        rcases List.mem_map.mp h with ⟨x, hx, hfx⟩
        rcases List.mem_cons.mp hx with h1 | h2
        · exact absurd (by rw [h1] at hfx; exact hfx) hak
        · exact List.mem_map.mpr ⟨x, h2, hfx⟩
      simp [aremove, hak, ih hmem]

theorem aremove_length_le {α β : Type} [DecidableEq α] (l : List (α × β)) (k : α) :
    (aremove l k).length ≤ l.length :=
  (aremove_sublist l k).length_le

theorem alookup_eq_none {α β : Type} [DecidableEq α] (l : List (α × β)) (k : α) :
    alookup l k = none ↔ k ∉ l.map Prod.fst := by
  induction l with
  | nil => simp [alookup]
  | cons hd tl ih =>
    obtain ⟨a, b⟩ := hd
    by_cases hak : a = k
    · subst hak
      simp [alookup]
    · simp [alookup, hak, ih, Ne.symm hak]

theorem aremove_of_not_mem {α β : Type} [DecidableEq α] {l : List (α × β)} {k : α}
    (h : k ∉ l.map Prod.fst) : aremove l k = l := by
  induction l with
  | nil => rfl
  | cons hd tl ih =>
    obtain ⟨a, b⟩ := hd
    simp only [List.map_cons, List.mem_cons] at h
    push_neg at h
    rw [aremove, if_neg (Ne.symm h.1), ih h.2]

theorem aremove_keys_sublist {α β : Type} [DecidableEq α] (l : List (α × β)) (k : α) :
    ((aremove l k).map Prod.fst).Sublist (l.map Prod.fst) :=
  (aremove_sublist l k).map Prod.fst

theorem alookup_aremove_self_of_nodup {α β : Type} [DecidableEq α]
    {l : List (α × β)} (k : α) (h : (l.map Prod.fst).Nodup) :
    alookup (aremove l k) k = none := by
  induction l with
  | nil => rfl
  | cons hd tl ih =>
    obtain ⟨a, b⟩ := hd
    simp only [List.map_cons, List.nodup_cons] at h
    by_cases hak : a = k
    · subst hak
      rw [aremove, if_pos rfl]
      exact (alookup_eq_none tl a).mpr h.1
    · rw [aremove, if_neg hak, alookup, if_neg hak]
      exact ih h.2

theorem aremoveAll_keys_sublist {α β : Type} [DecidableEq α]
    (l : List (α × β)) (ks : List α) :
    ((aremoveAll l ks).map Prod.fst).Sublist (l.map Prod.fst) := by
  induction ks generalizing l with
  | nil => exact List.Sublist.refl _
  | cons k rest ih =>
    exact (ih (aremove l k)).trans (aremove_keys_sublist l k)

theorem alookup_aremoveAll_not_mem {α β : Type} [DecidableEq α]
    {l : List (α × β)} {ks : List α} {k : α} (h : k ∉ ks) :
    alookup (aremoveAll l ks) k = alookup l k := by
  induction ks generalizing l with
  | nil => rfl
  | cons k' rest ih =>
    simp only [List.mem_cons] at h
    push_neg at h
    show alookup (aremoveAll (aremove l k') rest) k = _
    rw [ih h.2, alookup_aremove_ne _ _ _ h.1]

theorem alookup_aremoveAll_none {α β : Type} [DecidableEq α]
    {l : List (α × β)} (ks : List α) {k : α} (h : alookup l k = none) :
    alookup (aremoveAll l ks) k = none := by
  rw [alookup_eq_none] at h ⊢
  intro hmem
  exact h (List.Sublist.mem hmem (aremoveAll_keys_sublist l ks))

theorem alookup_aremoveAll_mem {α β : Type} [DecidableEq α]
    {l : List (α × β)} {ks : List α} {k : α}
    (hnd : (l.map Prod.fst).Nodup) (h : k ∈ ks) :
    alookup (aremoveAll l ks) k = none := by
  induction ks generalizing l with
  | nil => simp at h
  | cons k' rest ih =>
    show alookup (aremoveAll (aremove l k') rest) k = none
    rcases List.mem_cons.mp h with rfl | hmem
    · exact alookup_aremoveAll_none rest (alookup_aremove_self_of_nodup k hnd)
    · exact ih ((aremove_keys_sublist l k').nodup hnd) hmem

theorem zle_total (a b : String × Nat) : zle a b ∨ zle b a := by
  unfold zle
  rcases Nat.lt_trichotomy a.2 b.2 with h | h | h
  · exact Or.inl (Or.inl h)
  · rcases le_total a.1 b.1 with h' | h'
    · exact Or.inl (Or.inr ⟨h, h'⟩)
    · exact Or.inr (Or.inr ⟨h.symm, h'⟩)
  · exact Or.inr (Or.inl h)

theorem zle_of_not_lt {k : String} {sc : Nat} {m : String} {s : Nat}
    (h : ¬(sc < s ∨ (sc = s ∧ k ≤ m))) : zle (m, s) (k, sc) := by
  push_neg at h
  obtain ⟨h1, h2⟩ := h
  rcases Nat.lt_trichotomy s sc with hlt | heq | hgt
  · exact Or.inl hlt
  · exact Or.inr ⟨heq, le_of_lt (h2 heq.symm)⟩
  · exact absurd h1 (not_le_of_lt hgt)

theorem mem_zinsertSorted {q : String × Nat} {k : String} {sc : Nat}
    {l : List (String × Nat)} (h : q ∈ zinsertSorted k sc l) :
    q ∈ l ∨ q = (k, sc) := by
  induction l with
  | nil =>
    rw [zinsertSorted] at h
    exact Or.inr (List.mem_singleton.mp h)
  | cons hd tl ih =>
    obtain ⟨m, s⟩ := hd
    rw [zinsertSorted] at h
    by_cases hc : sc < s ∨ (sc = s ∧ k ≤ m)
    · rw [if_pos hc] at h
      rcases List.mem_cons.mp h with h | h
      · exact Or.inr h
      · exact Or.inl h
    · rw [if_neg hc] at h
      rcases List.mem_cons.mp h with h | h
      · exact Or.inl (by rw [h]; exact List.mem_cons_self _ _)
      · rcases ih h with h' | h'
        · exact Or.inl (List.mem_cons_of_mem _ h')
        · exact Or.inr h'

theorem zinsertSorted_sorted {l : List (String × Nat)} (hs : ZSorted l)
    (k : String) (sc : Nat) : ZSorted (zinsertSorted k sc l) := by
  induction l with
  | nil => simp [zinsertSorted, ZSorted]
  | cons hd tl ih =>
    obtain ⟨m, s⟩ := hd
    have hs' : ZSorted tl := (List.pairwise_cons.mp hs).2
    have hhd : ∀ b ∈ tl, zle (m, s) b := (List.pairwise_cons.mp hs).1
    by_cases hc : sc < s ∨ (sc = s ∧ k ≤ m)
    · rw [zinsertSorted, if_pos hc]
      refine List.pairwise_cons.mpr ⟨?_, hs⟩
      intro b hb
      rcases List.mem_cons.mp hb with hb | hb
      · subst hb
        rcases hc with h | ⟨h1, h2⟩
        · exact Or.inl h
        · exact Or.inr ⟨h1, h2⟩
      · have hmb := hhd b hb
        rcases hc with h | ⟨h1, h2⟩
        · rcases hmb with h' | ⟨h1', _⟩
          · exact Or.inl (h.trans h')
          · exact Or.inl (h1' ▸ h)
        · rcases hmb with h' | ⟨h1', h2'⟩
          · exact Or.inl (h1 ▸ h')
          · exact Or.inr ⟨h1.trans h1', h2.trans h2'⟩
    · rw [zinsertSorted, if_neg hc]
      refine List.pairwise_cons.mpr ⟨?_, ih hs'⟩
      intro b hb
      rcases mem_zinsertSorted hb with hb' | hb'
      · exact hhd b hb'
      · subst hb'
        exact zle_of_not_lt hc

theorem zinsertSorted_length (k : String) (sc : Nat) (l : List (String × Nat)) :
    (zinsertSorted k sc l).length = l.length + 1 := by
  induction l with
  | nil => simp [zinsertSorted]
  | cons hd tl ih =>
    obtain ⟨m, s⟩ := hd
    by_cases hc : sc < s ∨ (sc = s ∧ k ≤ m)
    · rw [zinsertSorted, if_pos hc]
      simp
    · rw [zinsertSorted, if_neg hc]
      simp [ih]

theorem zadd_length_le (l : List (String × Nat)) (k : String) (sc : Nat) :
    (zadd l k sc).length ≤ l.length + 1 := by
  unfold zadd
  rw [zinsertSorted_length]
  exact Nat.add_le_add_right (aremove_length_le l k) 1

theorem zadd_length_of_mem (l : List (String × Nat)) (k : String) (sc : Nat)
    (h : k ∈ zmembers l) : (zadd l k sc).length = l.length := by
  unfold zadd
  rw [zinsertSorted_length, aremove_length_of_mem l k h]

theorem zsorted_sublist {l l' : List (String × Nat)}
    (hsub : l'.Sublist l) (hs : ZSorted l) : ZSorted l' :=
  List.Pairwise.sublist hsub hs

theorem self_mem_zinsertSorted (k : String) (sc : Nat) (l : List (String × Nat)) :
    (k, sc) ∈ zinsertSorted k sc l := by
  induction l with
  | nil => exact List.mem_singleton.mpr rfl
  | cons hd tl ih =>
    obtain ⟨m, s⟩ := hd
    by_cases hc : sc < s ∨ (sc = s ∧ k ≤ m)
    · rw [zinsertSorted, if_pos hc]
      exact List.mem_cons_self _ _
    · rw [zinsertSorted, if_neg hc]
      exact List.mem_cons_of_mem _ ih

theorem zle_score {a b : String × Nat} (h : zle a b) : a.2 ≤ b.2 := by
  rcases h with h | ⟨h, _⟩
  · exact le_of_lt h
  · exact le_of_eq h

/-! Basic keyspace update facts. -/
theorem idxOf_update_self (s : InvState) (c : String) (t : Tier)
    (l : List (String × Nat)) (m : List ((String × String) × InventoryEntry)) :
    idxOf { s with recs := m, idx := aupdate s.idx (c, t) l } c t = l := by
  simp [idxOf, alookup_aupdate_self]

theorem idxOf_update_ne (s : InvState) {c c' : String} {t t' : Tier}
    (l : List (String × Nat)) (m : List ((String × String) × InventoryEntry))
    (h : (c', t') ≠ (c, t)) :
    idxOf { s with recs := m, idx := aupdate s.idx (c, t) l } c' t' = idxOf s c' t' := by
  simp [idxOf, alookup_aupdate_ne _ _ _ _ h]

theorem getPriority_meta_update (s : InvState) {c c' : String} (m : ContactMeta)
    (hp : getPriority s c = some m.priority ∨ c' ≠ c) :
    getPriority { s with meta := aupdate s.meta c m } c' = getPriority s c' := by
  by_cases hc : c' = c
  · subst hc
    rcases hp with hp | hp
    · unfold getPriority at hp ⊢
      rw [alookup_aupdate_self, Option.map_some']
      exact hp.symm
    · exact absurd rfl hp
  · simp [getPriority, alookup_aupdate_ne _ _ _ _ hc]

/-- Monotone weakening: a state with the same priorities and per-tier
sublists of the indexes keeps the budget invariant. -/
theorem budgetInv_of_sublist {s s' : InvState} (hb : BudgetInv s)
    (hp : ∀ c, getPriority s' c = getPriority s c)
    (hi : ∀ c t, (idxOf s' c t).Sublist (idxOf s c t)) : BudgetInv s' := by
  intro c t
  constructor
  · intro p hpc
    exact le_trans (hi c t).length_le ((hb c t).1 p ((hp c).symm ▸ hpc))
  · intro hpc
    have := (hb c t).2 ((hp c).symm ▸ hpc)
    exact List.sublist_nil.mp (this ▸ hi c t)

theorem popFromTier_priority (s : InvState) (c : String) (t : Tier) (c' : String) :
    getPriority (popFromTier s c t).2 c' = getPriority s c' := by
  unfold popFromTier
  rcases h : idxOf s c t with _ | ⟨⟨k, sc⟩, rest⟩
  · rfl
  · simp only []
    rcases alookup ({ s with idx := aupdate s.idx (c, t) rest } : InvState).recs (c, k) with _ | e
    · rfl
    · rfl

theorem popFromTier_idx_sublist (s : InvState) (c : String) (t : Tier)
    (c' : String) (t' : Tier) :
    (idxOf (popFromTier s c t).2 c' t').Sublist (idxOf s c' t') := by
  unfold popFromTier
  rcases h : idxOf s c t with _ | ⟨⟨k, sc⟩, rest⟩
  · exact List.Sublist.refl _
  · have hbase :
        ∀ m, idxOf { s with recs := m, idx := aupdate s.idx (c, t) rest } c' t' =
          if (c', t') = (c, t) then rest else idxOf s c' t' := by
      intro m
      by_cases hct : (c', t') = (c, t)
      · rcases hct with ⟨rfl, rfl⟩
        simp [idxOf_update_self]
      · simp [hct, idxOf_update_ne s _ _ hct]
    simp only []
    rcases alookup ({ s with idx := aupdate s.idx (c, t) rest } : InvState).recs (c, k) with _ | e
    · show (idxOf { s with idx := aupdate s.idx (c, t) rest } c' t').Sublist _
      have := hbase s.recs
      by_cases hct : (c', t') = (c, t)
      · rcases hct with ⟨rfl, rfl⟩
        rw [show ({ s with idx := aupdate s.idx (c, t) rest } : InvState) =
          { s with recs := s.recs, idx := aupdate s.idx (c, t) rest } from rfl, this,
          if_pos rfl, h]
        exact (List.sublist_cons_self _ _)
      · rw [show ({ s with idx := aupdate s.idx (c, t) rest } : InvState) =
          { s with recs := s.recs, idx := aupdate s.idx (c, t) rest } from rfl, this,
          if_neg hct]
    · show (idxOf { s with
          recs := aremove ({ s with idx := aupdate s.idx (c, t) rest } : InvState).recs (c, k),
          idx := aupdate s.idx (c, t) rest } c' t').Sublist _
      have := hbase (aremove ({ s with idx := aupdate s.idx (c, t) rest } : InvState).recs (c, k))
      rw [this]
      by_cases hct : (c', t') = (c, t)
      · rw [if_pos hct]
        rcases hct with ⟨rfl, rfl⟩
        rw [h]
        exact (List.sublist_cons_self _ _)
      · rw [if_neg hct]

theorem touchLastMsg_priority (s : InvState) (c : String) (now : Nat) (c' : String) :
    getPriority (touchLastMsg s c now) c' = getPriority s c' := by
  unfold touchLastMsg
  rcases h : alookup s.meta c with _ | m
  · rfl
  · refine getPriority_meta_update s _ ?_
    by_cases hc : c' = c
    · exact Or.inl (by simp [getPriority, h])
    · exact Or.inr hc

theorem touchLastMsg_idx (s : InvState) (c : String) (now : Nat)
    (c' : String) (t' : Tier) : idxOf (touchLastMsg s c now) c' t' = idxOf s c' t' := by
  unfold touchLastMsg
  rcases alookup s.meta c with _ | m <;> rfl

theorem selectLoop_priority (c : String) (now : Nat) (tiers : List Tier)
    (s : InvState) (c' : String) :
    getPriority (selectLoop c now s tiers).2 c' = getPriority s c' := by
  induction tiers generalizing s with
  | nil => rfl
  | cons t rest ih =>
    unfold selectLoop
    rcases hp : popFromTier s c t with ⟨r, s'⟩
    rcases r with _ | e
    · simp only []
      rw [ih s']
      have := popFromTier_priority s c t c'
      rw [hp] at this
      exact this
    · simp only []
      rw [touchLastMsg_priority]
      have := popFromTier_priority s c t c'
      rw [hp] at this
      exact this

theorem selectLoop_idx_sublist (c : String) (now : Nat) (tiers : List Tier)
    (s : InvState) (c' : String) (t' : Tier) :
    (idxOf (selectLoop c now s tiers).2 c' t').Sublist (idxOf s c' t') := by
  induction tiers generalizing s with
  | nil => exact List.Sublist.refl _
  | cons t rest ih =>
    unfold selectLoop
    rcases hp : popFromTier s c t with ⟨r, s'⟩
    have hsub : (idxOf s' c' t').Sublist (idxOf s c' t') := by
      have := popFromTier_idx_sublist s c t c' t'
      rw [hp] at this
      exact this
    rcases r with _ | e
    · simp only []
      exact (ih s').trans hsub
    · simp only []
      rw [touchLastMsg_idx]
      exact hsub

theorem trimTier_idx_self (s : InvState) (c : String) (t : Tier) (cap : Nat) :
    idxOf (trimTier s c t cap).2 c t = (idxOf s c t).take cap := by
  unfold trimTier
  by_cases h : (idxOf s c t).length ≤ cap
  · rw [if_pos h]
    exact ((idxOf s c t).take_of_length_le h).symm
  · rw [if_neg h]
    exact idxOf_update_self _ _ _ _ _

theorem trimTier_idx_ne (s : InvState) {c c' : String} {t t' : Tier} (cap : Nat)
    (h : (c', t') ≠ (c, t)) :
    idxOf (trimTier s c t cap).2 c' t' = idxOf s c' t' := by
  unfold trimTier
  by_cases hl : (idxOf s c t).length ≤ cap
  · rw [if_pos hl]
  · rw [if_neg hl]
    exact idxOf_update_ne s _ _ h

theorem trimTier_priority (s : InvState) (c : String) (t : Tier) (cap : Nat)
    (c' : String) : getPriority (trimTier s c t cap).2 c' = getPriority s c' := by
  unfold trimTier
  by_cases hl : (idxOf s c t).length ≤ cap
  · rw [if_pos hl]
  · rw [if_neg hl]
    rfl

theorem trimExcess_priority (s : InvState) (c : String) (p : Priority)
    (c' : String) : getPriority (trimExcess s c p).2 c' = getPriority s c' := by
  unfold trimExcess
  simp only []
  rw [trimTier_priority, trimTier_priority, trimTier_priority]

theorem trimExcess_idx_le (s : InvState) (c : String) (p : Priority) (t : Tier) :
    (idxOf (trimExcess s c p).2 c t).length ≤ BUDGET_CAPS p t := by
  unfold trimExcess
  simp only []
  cases t
  · rw [trimTier_idx_ne _ _ (by simp), trimTier_idx_ne _ _ (by simp),
      trimTier_idx_self]
    rw [List.length_take]
    exact Nat.min_le_left _ _
  · rw [trimTier_idx_ne _ _ (by simp), trimTier_idx_self]
    rw [List.length_take]
    exact Nat.min_le_left _ _
  · rw [trimTier_idx_self]
    rw [List.length_take]
    exact Nat.min_le_left _ _

theorem trimExcess_idx_ne_contact (s : InvState) {c c' : String} (p : Priority)
    (t' : Tier) (h : c' ≠ c) :
    idxOf (trimExcess s c p).2 c' t' = idxOf s c' t' := by
  unfold trimExcess
  simp only []
  rw [trimTier_idx_ne _ _ (by simp [h]), trimTier_idx_ne _ _ (by simp [h]),
    trimTier_idx_ne _ _ (by simp [h])]

/-- One cap-safe operation preserves the budget invariant. -/
theorem applyOp_budget {s : InvState} (hb : BudgetInv s) (op : InvOp)
    (hcs : capSafeOp s op = true) : BudgetInv (applyOp s op) := by
  cases op with
  | register c p d now =>
    show BudgetInv (register_contact s c p d now).2
    unfold register_contact
    rcases hm : alookup s.meta c with _ | m
    · intro c' t
      have hpold : getPriority s c = none := by simp [getPriority, hm]
      have hidx : ∀ t', idxOf ({ s with meta := aupdate s.meta c ⟨c, p, now, d⟩ } :
          InvState) c' t' = idxOf s c' t' := fun _ => rfl
      constructor
      · intro p' hp'
        rw [hidx]
        by_cases hc : c' = c
        · subst hc
          rw [(hb c' t).2 hpold]
          exact Nat.zero_le _
        · have : getPriority s c' = some p' := by
            unfold getPriority at hp' ⊢
            rw [← hp', alookup_aupdate_ne _ _ _ _ hc]
          exact (hb c' t).1 p' this
      · intro hp'
        rw [hidx]
        by_cases hc : c' = c
        · subst hc
          unfold getPriority at hp'
          rw [alookup_aupdate_self] at hp'
          simp at hp'
        · have : getPriority s c' = none := by
            unfold getPriority at hp' ⊢
            rw [← hp', alookup_aupdate_ne _ _ _ _ hc]
          exact (hb c' t).2 this
    · exact hb
  | store c k t pk sig now =>
    show BudgetInv (applyOp s (.store c k t pk sig now))
    simp only [applyOp]
    rcases hs : store_key s c k t pk sig now with e | ⟨b, s'⟩
    · exact hb
    · show BudgetInv s'
      unfold store_key at hs
      rcases hp : getPriority s c with _ | p
      · rw [hp] at hs
        exact absurd hs (by simp)
      · rw [hp] at hs
        simp only [] at hs
        by_cases hcap : BUDGET_CAPS p t = 0
        · rw [if_pos hcap] at hs
          exact absurd hs (by simp)
        · rw [if_neg hcap] at hs
          by_cases hcur : BUDGET_CAPS p t ≤ (idxOf s c t).length
          · rw [if_pos hcur] at hs
            exact absurd hs (by simp)
          · rw [if_neg hcur] at hs
            have hss : s' = { s with
                recs := aupdate s.recs (c, k) ⟨c, k, t, pk, sig, now⟩,
                idx := aupdate s.idx (c, t) (zadd (idxOf s c t) k now) } := by
              injection hs with h2
              injection h2 with hb2 hs2
              exact hs2.symm
            subst hss
            intro c' t'
            have hprio : ∀ c'', getPriority ({ s with
                recs := aupdate s.recs (c, k) ⟨c, k, t, pk, sig, now⟩,
                idx := aupdate s.idx (c, t) (zadd (idxOf s c t) k now) } :
                InvState) c'' = getPriority s c'' := fun _ => rfl
            constructor
            · intro p' hp'
              rw [hprio] at hp'
              by_cases hct : (c', t') = (c, t)
              · rcases Prod.mk.injEq .. ▸ hct with ⟨rfl, rfl⟩
                rw [idxOf_update_self]
                have hpp : p' = p := by
                  rw [hp] at hp'
                  injection hp' with h3
                  exact h3.symm
                subst hpp
                calc (zadd (idxOf s c' t') k now).length
                    ≤ (idxOf s c' t').length + 1 := zadd_length_le _ _ _
                  _ ≤ BUDGET_CAPS p' t' := Nat.lt_of_not_le hcur
              · rw [idxOf_update_ne s _ _ hct]
                exact (hb c' t').1 p' hp'
            · intro hp'
              rw [hprio] at hp'
              by_cases hct : (c', t') = (c, t)
              · rcases Prod.mk.injEq .. ▸ hct with ⟨rfl, rfl⟩
                rw [hp] at hp'
                exact absurd hp' (by simp)
              · rw [idxOf_update_ne s _ _ hct]
                exact (hb c' t').2 hp'
  | select c t now =>
    show BudgetInv (applyOp s (.select c t now))
    simp only [applyOp]
    rcases hs : select_coin s c t now with e | ⟨r, s'⟩
    · exact hb
    · show BudgetInv s'
      unfold select_coin select_coin_src at hs
      rcases hp : getPriority s c with _ | p
      · rw [hp] at hs
        exact absurd hs (by simp [Except.map])
      · rw [hp] at hs
        simp only [Except.map] at hs
        have hss : s' = (selectLoop c now s (tiersToTry t)).2 := by
          injection hs with h2
          exact (congrArg Prod.snd h2).symm
        subst hss
        refine budgetInv_of_sublist hb ?_ ?_
        · exact fun c' => selectLoop_priority c now (tiersToTry t) s c'
        · exact fun c' t' => selectLoop_idx_sublist c now (tiersToTry t) s c' t'
  | consume c k =>
    show BudgetInv (consume_key s c k).2
    unfold consume_key
    rcases hr : alookup s.recs (c, k) with _ | e
    · exact hb
    · refine budgetInv_of_sublist hb (fun c' => rfl) ?_
      intro c' t'
      by_cases hct : (c', t') = (c, e.coin_category)
      · rcases Prod.mk.injEq .. ▸ hct with ⟨rfl, rfl⟩
        rw [idxOf_update_self]
        exact aremove_sublist _ _
      · rw [idxOf_update_ne s _ _ hct]
  | setPriority c p =>
    show BudgetInv (applyOp s (.setPriority c p))
    simp only [applyOp]
    rcases hs : set_contact_priority s c p with e | ⟨b, s'⟩
    · exact hb
    · show BudgetInv s'
      unfold set_contact_priority at hs
      rcases hm : alookup s.meta c with _ | m
      · rw [hm] at hs
        exact absurd hs (by simp)
      · rw [hm] at hs
        simp only [] at hs
        have hpold : getPriority s c = some m.priority := by simp [getPriority, hm]
        by_cases heq : m.priority = p
        · rw [if_pos heq] at hs
          have hss : s' = s := by
            injection hs with h2
            injection h2 with hb2 hs2
            exact hs2.symm
          subst hss
          exact hb
        · rw [if_neg heq] at hs
          set s1 : InvState := { s with meta := aupdate s.meta c { m with priority := p } }
            with hs1
          have hprio1 : ∀ c', getPriority s1 c' =
              if c' = c then some p else getPriority s c' := by
            intro c'
            by_cases hc : c' = c
            · subst hc
              simp [hs1, getPriority, alookup_aupdate_self]
            · rw [if_neg hc, hs1]
              show getPriority { s with meta := aupdate s.meta c _ } c' = _
              unfold getPriority
              rw [alookup_aupdate_ne _ _ _ _ hc]
          have hidx1 : ∀ c' t', idxOf s1 c' t' = idxOf s c' t' := fun _ _ => rfl
          by_cases hrank : priorityRank m.priority < priorityRank p
          · rw [if_pos hrank] at hs
            have hss : s' = (trimExcess s1 c p).2 := by
              injection hs with h2
              injection h2 with hb2 hs2
              exact hs2.symm
            subst hss
            intro c' t
            constructor
            · intro p' hp'
              rw [trimExcess_priority, hprio1] at hp'
              by_cases hc : c' = c
              · subst hc
                rw [if_pos rfl] at hp'
                have hpp : p' = p := by
                  injection hp' with h3
                  exact h3.symm
                subst hpp
                exact trimExcess_idx_le s1 c' p' t
              · rw [if_neg hc] at hp'
                rw [trimExcess_idx_ne_contact _ _ _ hc, hidx1]
                exact (hb c' t).1 p' hp'
            · intro hp'
              rw [trimExcess_priority, hprio1] at hp'
              by_cases hc : c' = c
              · subst hc
                rw [if_pos rfl] at hp'
                exact absurd hp' (by simp)
              · rw [if_neg hc] at hp'
                rw [trimExcess_idx_ne_contact _ _ _ hc, hidx1]
                exact (hb c' t).2 hp'
          · rw [if_neg hrank] at hs
            have hss : s' = s1 := by
              injection hs with h2
              injection h2 with hb2 hs2
              exact hs2.symm
            subst hss
            have hcaps : ∀ t, BUDGET_CAPS m.priority t ≤ BUDGET_CAPS p t := by
              have hcs' := hcs
              simp only [capSafeOp] at hcs'
              rw [hpold] at hcs'
              simp only [Bool.or_eq_true, Bool.and_eq_true, decide_eq_true_eq] at hcs'
              rcases hcs' with h | ⟨⟨hg, hsv⟩, hbz⟩
              · have hinj : ∀ a b : Priority, priorityRank a = priorityRank b → a = b := by
                  intro a b
                  cases a <;> cases b <;> simp [priorityRank]
                exact absurd (Nat.lt_of_le_of_ne h (fun hr => heq (hinj _ _ hr))) hrank
              · intro t
                cases t <;> assumption
            intro c' t
            constructor
            · intro p' hp'
              rw [hprio1] at hp'
              rw [hidx1]
              by_cases hc : c' = c
              · subst hc
                rw [if_pos rfl] at hp'
                have hpp : p' = p := by
                  injection hp' with h3
                  exact h3.symm
                subst hpp
                exact le_trans ((hb c' t).1 m.priority hpold) (hcaps t)
              · rw [if_neg hc] at hp'
                exact (hb c' t).1 p' hp'
            · intro hp'
              rw [hprio1] at hp'
              rw [hidx1]
              by_cases hc : c' = c
              · subst hc
                rw [if_pos rfl] at hp'
                exact absurd hp' (by simp)
              · rw [if_neg hc] at hp'
                exact (hb c' t).2 hp'

/-- The budget invariant holds in the empty keyspace. -/
theorem budgetInv_init : BudgetInv invInit := by
  intro c t
  constructor
  · intro p hp
    simp [getPriority, invInit, alookup] at hp
  · intro _
    rfl

/-- The budget invariant holds after any cap-safe trace. -/
theorem invExec_budget : ∀ (ops : List InvOp) (s : InvState), BudgetInv s →
    capSafe s ops = true → BudgetInv (invExec s ops) := by
  intro ops
  induction ops with
  | nil => intro s hb _; exact hb
  | cons op rest ih =>
    intro s hb hcs
    rw [capSafe, Bool.and_eq_true] at hcs
    rcases hcs with ⟨h1, h2⟩
    exact ih (applyOp s op) (applyOp_budget hb op h1) h2

/-- C1 (amended).  The budget invariant `|index(c,T)| ≤
BudgetCaps[priority(c)][T]` holds after every cap-safe trace of inventory
operations from the empty keyspace — a trace with no `set_contact_priority`
upgrade that shrinks some tier cap (with the published table, no
MATE → BESTIE upgrade); an upgrade runs no trim, so it can leave an index
above the new cap, which refutes the unconditional claim.  Unconditionally,
`store_key` on a tier whose cap is 0 fails with `BudgetExceeded` carrying
`current = 0, cap = 0`, and `store_key` when the tier index already holds
at least `cap > 0` entries fails with `BudgetExceeded (current, cap)`
instead of committing. -/
theorem C1_budget_caps :
    (∀ ops : List InvOp, capSafe invInit ops = true →
      BudgetInv (invExec invInit ops)) ∧
    (∀ (s : InvState) (c k : String) (t : Tier) (pk sig : String) (now : Nat)
      (p : Priority), getPriority s c = some p → BUDGET_CAPS p t = 0 →
      store_key s c k t pk sig now = .error (.budgetExceeded c t 0 0)) ∧
    (∀ (s : InvState) (c k : String) (t : Tier) (pk sig : String) (now : Nat)
      (p : Priority), getPriority s c = some p → 0 < BUDGET_CAPS p t →
      BUDGET_CAPS p t ≤ (idxOf s c t).length →
      store_key s c k t pk sig now =
        .error (.budgetExceeded c t (idxOf s c t).length (BUDGET_CAPS p t))) := by
  refine ⟨?_, ?_, ?_⟩
  · intro ops hsafe
    exact invExec_budget ops invInit budgetInv_init hsafe
  · intro s c k t pk sig now p hp hcap
    unfold store_key
    rw [hp]
    simp only []
    rw [if_pos hcap]
  · intro s c k t pk sig now p hp hpos hfull
    unfold store_key
    rw [hp]
    simp only []
    rw [if_neg (Nat.pos_iff_ne_zero.mp hpos), if_pos hfull]

/-- C1 counterexample.  The concrete trace `c1Trace` registers contact
"a" as MATE, stores two BRONZE keys (within the MATE BRONZE cap 4), then
upgrades the contact to BESTIE whose BRONZE cap is 1.  No trim runs on an
upgrade, so afterwards the BRONZE index holds 2 entries while the cap of
the contact's priority is 1: the claimed invariant is violated at an
observable moment. -/
theorem C1_budget_caps_counterexample :
    getPriority (invExec invInit c1Trace) "a" = some BESTIE ∧
    BUDGET_CAPS BESTIE BRONZE = 1 ∧
    (idxOf (invExec invInit c1Trace) "a" BRONZE).length = 2 := by decide

/-- C1 witness: the amended theorem applied at concrete inputs. -/
theorem C1_budget_caps_witness :
    (capSafe invInit c1SafeTrace = true ∧ BudgetInv (invExec invInit c1SafeTrace)) ∧
    (getPriority c1ZeroState "m" = some MATE ∧ BUDGET_CAPS MATE GOLD = 0 ∧
      store_key c1ZeroState "m" "k" GOLD "p" "g" 9 =
        .error (.budgetExceeded "m" GOLD 0 0)) ∧
    (getPriority c1FullState "b" = some BESTIE ∧ 0 < BUDGET_CAPS BESTIE BRONZE ∧
      BUDGET_CAPS BESTIE BRONZE ≤ (idxOf c1FullState "b" BRONZE).length ∧
      store_key c1FullState "b" "b1" BRONZE "p" "g" 9 =
        .error (.budgetExceeded "b" BRONZE (idxOf c1FullState "b" BRONZE).length
          (BUDGET_CAPS BESTIE BRONZE))) :=
  ⟨⟨by decide, C1_budget_caps.1 c1SafeTrace (by decide)⟩,
   ⟨by decide, by decide,
    C1_budget_caps.2.1 c1ZeroState "m" "k" GOLD "p" "g" 9 MATE (by decide) (by decide)⟩,
   ⟨by decide, by decide, by decide,
    C1_budget_caps.2.2 c1FullState "b" "b1" BRONZE "p" "g" 9 BESTIE
      (by decide) (by decide) (by decide)⟩⟩

/-- C3.  `burn_key(key_id)` fails with `KeyNotFound` when no entry with
that `key_id` exists, fails with `KeyAlreadyBurned` when the entry's status
is already `BURNED` (a second burn is an error, not a no-op), and on an
ACTIVE entry succeeds: status becomes `BURNED`, `active_<tier>` drops by
one, `total_burned` rises by one, and afterwards `fetch_key` returns
nothing while `count_active` for the tier reflects the decrement. -/
theorem C3_burn_key (s : VaultState) (k : String) :
    (alookup s.entries k = none → burn_key s k = .error (.keyNotFound k)) ∧
    (∀ e, alookup s.entries k = some e → e.status = BURNED →
      burn_key s k = .error (.keyAlreadyBurned k)) ∧
    (∀ e, alookup s.entries k = some e → e.status = ACTIVE →
      ∃ s', burn_key s k = .ok (true, s') ∧
        (alookup s'.entries k).map (·.status) = some BURNED ∧
        count_active s' e.coin_category = count_active s e.coin_category - 1 ∧
        s'.stats.total_burned = s.stats.total_burned + 1 ∧
        fetch_key s' k = none) := by
  refine ⟨?_, ?_, ?_⟩
  · intro h
    unfold burn_key
    rw [h]
  · intro e he hst
    unfold burn_key
    rw [he]
    simp only []
    rw [if_pos hst]
  · intro e he hst
    unfold burn_key
    rw [he]
    simp only []
    have hnb : ¬ e.status = BURNED := by rw [hst]; intro h; cases h
    rw [if_neg hnb]
    refine ⟨_, rfl, ?_, ?_, ?_, ?_⟩
    · rw [alookup_aupdate_self]
      rfl
    · cases he' : e.coin_category <;>
        simp [count_active, bumpActive, he', Int.sub_eq_add_neg]
    · cases e.coin_category <;> simp [bumpActive]
    · unfold fetch_key
      rw [alookup_aupdate_self]
      simp

/-- C3 witness: the theorem applied to a vault holding one ACTIVE GOLD
entry and to the missing key "ghost". -/
theorem C3_burn_key_witness :
    (alookup c3Vault.entries "ghost" = none ∧
      burn_key c3Vault "ghost" = .error (.keyNotFound "ghost")) ∧
    (alookup c3Vault.entries "k" = some c3Entry ∧ c3Entry.status = ACTIVE ∧
      ∃ s', burn_key c3Vault "k" = .ok (true, s') ∧
        (alookup s'.entries "k").map (·.status) = some BURNED ∧
        count_active s' c3Entry.coin_category =
          count_active c3Vault c3Entry.coin_category - 1 ∧
        s'.stats.total_burned = c3Vault.stats.total_burned + 1 ∧
        fetch_key s' "k" = none) :=
  ⟨⟨by decide, (C3_burn_key c3Vault "ghost").1 (by decide)⟩,
   ⟨by decide, by decide,
    (C3_burn_key c3Vault "k").2.2 c3Entry (by decide) (by decide)⟩⟩

theorem trimTier_recs (s : InvState) (c : String) (t : Tier) (cap : Nat) :
    (trimTier s c t cap).2.recs =
      aremoveAll s.recs (((idxOf s c t).drop cap).map (fun kv => (c, kv.1))) := by
  unfold trimTier
  by_cases h : (idxOf s c t).length ≤ cap
  · rw [if_pos h, List.drop_eq_nil_of_le h]
    rfl
  · rw [if_neg h]

theorem nodup_append3 {α : Type} {a b c : List α} (h : ((a ++ b) ++ c).Nodup) :
    a.Nodup ∧ b.Nodup ∧ c.Nodup ∧
    (∀ x, x ∈ a → x ∉ b) ∧ (∀ x, x ∈ a → x ∉ c) ∧ (∀ x, x ∈ b → x ∉ c) := by
  rw [List.nodup_append, List.nodup_append] at h
  obtain ⟨⟨ha, hb, hab⟩, hc, habc⟩ := h
  refine ⟨ha, hb, hc, ?_, ?_, ?_⟩
  · intro x hxa hxb
    exact hab hxa hxb
  · intro x hxa hxc
    exact habc (List.mem_append.mpr (Or.inl hxa)) hxc
  · intro x hxb hxc
    exact habc (List.mem_append.mpr (Or.inr hxb)) hxc

theorem pairKey_mem {c x : String} {l : List (String × Nat)} :
    (c, x) ∈ l.map (fun kv => (c, kv.1)) ↔ x ∈ zmembers l := by
  simp [zmembers, List.mem_map]

theorem zmembers_take_subset (l : List (String × Nat)) (n : Nat) :
    ∀ x, x ∈ zmembers (l.take n) → x ∈ zmembers l := by
  intro x hx
  exact ((l.take_sublist n).map Prod.fst).mem hx

theorem zmembers_drop_subset (l : List (String × Nat)) (n : Nat) :
    ∀ x, x ∈ zmembers (l.drop n) → x ∈ zmembers l := by
  intro x hx
  exact ((l.drop_sublist n).map Prod.fst).mem hx

theorem take_drop_members_disjoint {l : List (String × Nat)} (n : Nat)
    (h : (zmembers l).Nodup) :
    ∀ x, x ∈ zmembers (l.take n) → x ∉ zmembers (l.drop n) := by
  intro x hx hx'
  have hsplit : zmembers (l.take n) ++ zmembers (l.drop n) = zmembers l := by
    unfold zmembers
    rw [← List.map_append, List.take_append_drop]
  rw [← hsplit, List.nodup_append] at h
  exact h.2.2 hx hx'

theorem take_le_drop_of_sorted {l : List (String × Nat)} (hs : ZSorted l) (n : Nat) :
    ∀ kv ∈ l.take n, ∀ kv' ∈ l.drop n, kv.2 ≤ kv'.2 := by
  intro kv hkv kv' hkv'
  have hpair : List.Pairwise zle (l.take n ++ l.drop n) := by
    rw [List.take_append_drop]
    exact hs
  exact zle_score ((List.pairwise_append.mp hpair).2.2 kv hkv kv' hkv')

theorem trimExcess_snd (s : InvState) (c : String) (p : Priority) :
    (trimExcess s c p).2 =
      (trimTier (trimTier (trimTier s c GOLD (BUDGET_CAPS p GOLD)).2
        c SILVER (BUDGET_CAPS p SILVER)).2 c BRONZE (BUDGET_CAPS p BRONZE)).2 := rfl

theorem mem_of_alookup {α β : Type} [DecidableEq α] {l : List (α × β)} {k : α}
    {v : β} (h : alookup l k = some v) : (k, v) ∈ l := by
  induction l with
  | nil => cases h
  | cons hd tl ih =>
    obtain ⟨a, b⟩ := hd
    by_cases hak : a = k
    · subst hak
      rw [alookup, if_pos rfl] at h
      injection h with h
      subst h
      exact List.mem_cons_self _ _
    · rw [alookup, if_neg hak] at h
      exact List.mem_cons_of_mem _ (ih h)

theorem linked_idxOf {s : InvState} (h : IdxRecLinked s) (c : String) (t : Tier) :
    ∀ kv ∈ idxOf s c t,
      ((alookup s.recs (c, kv.1)).map
        (fun e => (e.key_id, e.coin_category, e.fetched_at))) = some (kv.1, t, kv.2) := by
  intro kv hkv
  unfold idxOf at hkv
  rcases hl : alookup s.idx (c, t) with _ | l
  · rw [hl] at hkv
    simp at hkv
  · rw [hl] at hkv
    exact h ((c, t), l) (mem_of_alookup hl) kv hkv

theorem sorted_idxOf {s : InvState} (h : ∀ p ∈ s.idx, ZSorted p.2)
    (c : String) (t : Tier) : ZSorted (idxOf s c t) := by
  unfold idxOf
  rcases hl : alookup s.idx (c, t) with _ | l
  · exact List.Pairwise.nil
  · exact h ((c, t), l) (mem_of_alookup hl)

theorem nodup_idxOf {s : InvState} (h : ∀ p ∈ s.idx, (zmembers p.2).Nodup)
    (c : String) (t : Tier) : (zmembers (idxOf s c t)).Nodup := by
  unfold idxOf
  rcases hl : alookup s.idx (c, t) with _ | l
  · exact List.Pairwise.nil
  · exact h ((c, t), l) (mem_of_alookup hl)

/-- Each fallback tier ranks at or below the desired tier. -/
theorem tiersToTry_level (t : Tier) : ∀ t' ∈ tiersToTry t, tierLevel t' ≤ tierLevel t := by
  cases t <;> decide

/-- Specification of the `select_coin` tier loop on a well-formed
keyspace: either every tried tier's index is empty and nothing is
returned, or the returned entry is the record of the head (oldest) index
member of the first tier in the attempt order whose index is non-empty. -/
theorem selectLoop_spec (c : String) (now : Nat) (l : List Tier) (s : InvState)
    (hwf : InvWF s) :
    ((selectLoop c now s l).1 = none ∧ ∀ t' ∈ l, idxOf s c t' = []) ∨
    (∃ e t' pre post, (selectLoop c now s l).1 = some (e, t') ∧
      l = pre ++ t' :: post ∧ (∀ t'' ∈ pre, idxOf s c t'' = []) ∧
      (idxOf s c t').head? = some (e.key_id, e.fetched_at) ∧
      e.coin_category = t' ∧ alookup s.recs (c, e.key_id) = some e) := by
  induction l with
  | nil =>
    left
    exact ⟨rfl, by intro t' ht'; cases ht'⟩
  | cons t rest ih =>
    rcases hidx : idxOf s c t with _ | ⟨⟨k, sc⟩, restIdx⟩
    · have hpop : popFromTier s c t = (none, s) := by
        unfold popFromTier
        rw [hidx]
      have hloop : selectLoop c now s (t :: rest) = selectLoop c now s rest := by
        rw [selectLoop, hpop]
      rcases ih with ⟨hnone, hall⟩ |
        ⟨e, t', pre, post, hres, hsplit, hpre, hhd, hcat, hrec0⟩
      · left
        refine ⟨by rw [hloop]; exact hnone, ?_⟩
        intro t' ht'
        rcases List.mem_cons.mp ht' with rfl | ht'
        · exact hidx
        · exact hall t' ht'
      · right
        refine ⟨e, t', t :: pre, post, by rw [hloop]; exact hres, by rw [hsplit]; rfl, ?_,
          hhd, hcat, hrec0⟩
        intro t'' ht''
        rcases List.mem_cons.mp ht'' with rfl | ht''
        · exact hidx
        · exact hpre t'' ht''
    · have hlink := linked_idxOf hwf.1 c t (k, sc) (by rw [hidx]; exact List.mem_cons_self _ _)
      rcases hrec : alookup s.recs (c, k) with _ | e
      · rw [hrec] at hlink
        cases hlink
      · rw [hrec] at hlink
        simp only [Option.map_some'] at hlink
        injection hlink with hlink
        have hkey : e.key_id = k := congrArg Prod.fst hlink
        have hcat : e.coin_category = t := congrArg Prod.fst (congrArg Prod.snd hlink)
        have hsc : e.fetched_at = sc := congrArg Prod.snd (congrArg Prod.snd hlink)
        have hpop : popFromTier s c t =
            (some e, { s with idx := aupdate s.idx (c, t) restIdx,
                              recs := aremove s.recs (c, k) }) := by
          unfold popFromTier
          rw [hidx]
          simp only []
          rw [show alookup ({ s with idx := aupdate s.idx (c, t) restIdx } :
            InvState).recs (c, k) = alookup s.recs (c, k) from rfl, hrec]
        right
        refine ⟨e, t, [], rest, ?_, rfl, ?_, ?_, hcat, by rw [hkey]; exact hrec⟩
        · rw [selectLoop, hpop]
        · intro t'' h
          cases h
        · rw [hidx]
          show some (k, sc) = some (e.key_id, e.fetched_at)
          rw [hkey, hsc]

theorem alookup_of_mem_nodup {α β : Type} [DecidableEq α] {l : List (α × β)}
    {k : α} {v : β} (hnd : (l.map Prod.fst).Nodup) (h : (k, v) ∈ l) :
    alookup l k = some v := by
  induction l with
  | nil => cases h
  | cons hd tl ih =>
    obtain ⟨a, b⟩ := hd
    simp only [List.map_cons, List.nodup_cons] at hnd
    rcases List.mem_cons.mp h with h | h
    · injection h with h1 h2
      subst h1
      subst h2
      rw [alookup, if_pos rfl]
    · have hak : a ≠ k := by
        intro hak
        subst hak
        exact hnd.1 (List.mem_map_of_mem Prod.fst h)
      rw [alookup, if_neg hak]
      exact ih hnd.2 h

theorem mem_aupdate_nodup {α β : Type} [DecidableEq α] {l : List (α × β)}
    {k : α} {v : β} {q : α × β} (hnd : (l.map Prod.fst).Nodup)
    (h : q ∈ aupdate l k v) : q = (k, v) ∨ (q ∈ l ∧ q.1 ≠ k) := by
  induction l with
  | nil =>
    rw [aupdate] at h
    exact Or.inl (List.mem_singleton.mp h)
  | cons hd tl ih =>
    obtain ⟨a, b⟩ := hd
    simp only [List.map_cons, List.nodup_cons] at hnd
    by_cases hak : a = k
    · subst hak
      rw [aupdate, if_pos rfl] at h
      rcases List.mem_cons.mp h with h | h
      · exact Or.inl h
      · right
        refine ⟨List.mem_cons_of_mem _ h, ?_⟩
        intro hq
        exact hnd.1 (hq ▸ List.mem_map_of_mem Prod.fst h)
    · rw [aupdate, if_neg hak] at h
      rcases List.mem_cons.mp h with h | h
      · subst h
        exact Or.inr ⟨List.mem_cons_self _ _, hak⟩
      · rcases ih hnd.2 h with h' | ⟨h1, h2⟩
        · exact Or.inl h'
        · exact Or.inr ⟨List.mem_cons_of_mem _ h1, h2⟩

theorem aupdate_keys_nodup {α β : Type} [DecidableEq α] {l : List (α × β)}
    (k : α) (v : β) (hnd : (l.map Prod.fst).Nodup) :
    ((aupdate l k v).map Prod.fst).Nodup := by
  induction l with
  | nil => simp [aupdate]
  | cons hd tl ih =>
    obtain ⟨a, b⟩ := hd
    simp only [List.map_cons, List.nodup_cons] at hnd
    by_cases hak : a = k
    · subst hak
      rw [aupdate, if_pos rfl]
      simp only [List.map_cons, List.nodup_cons]
      exact ⟨hnd.1, hnd.2⟩
    · rw [aupdate, if_neg hak]
      simp only [List.map_cons, List.nodup_cons]
      refine ⟨?_, ih hnd.2⟩
      intro hmem
      have : ∀ q ∈ aupdate tl k v, q = (k, v) ∨ q ∈ tl := by
        intro q hq
        rcases mem_aupdate_nodup hnd.2 hq with h | ⟨h, _⟩
        · exact Or.inl h
        · exact Or.inr h
      rcases List.mem_map.mp hmem with ⟨q, hq, hfq⟩
      rcases this q hq with rfl | hq'
      · exact hak hfq.symm
      · exact hnd.1 (hfq ▸ List.mem_map_of_mem Prod.fst hq')

theorem touchLastMsg_recs (s : InvState) (c : String) (now : Nat) :
    (touchLastMsg s c now).recs = s.recs := by
  unfold touchLastMsg
  rcases alookup s.meta c with _ | m <;> rfl

theorem touchLastMsg_idx_eq (s : InvState) (c : String) (now : Nat) :
    (touchLastMsg s c now).idx = s.idx := by
  unfold touchLastMsg
  rcases alookup s.meta c with _ | m <;> rfl

/-- When every tried tier is empty the tier loop changes nothing. -/
theorem selectLoop_none_state (c : String) (now : Nat) (l : List Tier)
    (s : InvState) (hempty : ∀ t' ∈ l, idxOf s c t' = []) :
    selectLoop c now s l = (none, s) := by
  induction l with
  | nil => rfl
  | cons t rest ih =>
    have hpop : popFromTier s c t = (none, s) := by
      unfold popFromTier
      rw [hempty t (List.mem_cons_self _ _)]
    rw [selectLoop, hpop]
    exact ih (fun t' ht' => hempty t' (List.mem_cons_of_mem _ ht'))

/-- The tier loop's exact result and state when the first non-empty tried
tier is `t'` with head member `(k, sc)` whose record is `e`. -/
theorem selectLoop_eq_of_first (c : String) (now : Nat) (pre : List Tier)
    (t' : Tier) (post : List Tier) (s : InvState)
    (hpre : ∀ t'' ∈ pre, idxOf s c t'' = []) (k : String) (sc : Nat)
    (tl : List (String × Nat)) (hidx : idxOf s c t' = (k, sc) :: tl)
    (e : InventoryEntry) (hrec : alookup s.recs (c, k) = some e) :
    selectLoop c now s (pre ++ t' :: post) =
      (some (e, t'), touchLastMsg { s with
        idx := aupdate s.idx (c, t') tl,
        recs := aremove s.recs (c, k) } c now) := by
  induction pre with
  | nil =>
    have hpop : popFromTier s c t' =
        (some e, { s with
          idx := aupdate s.idx (c, t') tl,
          recs := aremove s.recs (c, k) }) := by
      unfold popFromTier
      rw [hidx]
      simp only []
      rw [show alookup ({ s with idx := aupdate s.idx (c, t') tl } :
        InvState).recs (c, k) = alookup s.recs (c, k) from rfl, hrec]
    rw [List.nil_append, selectLoop, hpop]
  | cons t0 pre' ih =>
    have hpop : popFromTier s c t0 = (none, s) := by
      unfold popFromTier
      rw [hpre t0 (List.mem_cons_self _ _)]
    rw [List.cons_append, selectLoop, hpop]
    exact ih (fun t'' ht'' => hpre t'' (List.mem_cons_of_mem _ ht''))

/-- One `select_coin` call on a well-formed keyspace with a registered
contact: the package of state facts used by the C5 run induction. -/
theorem select_src_step (s : InvState) (c : String) (p : Priority) (t0 : Tier)
    (now0 : Nat) (hwf : InvWF s) (hreg : getPriority s c = some p) :
    ∃ r s1, select_coin_src s c t0 now0 = .ok (r, s1) ∧ InvWF s1 ∧
      getPriority s1 c = some p ∧
      ((r = none ∧ s1 = s) ∨
       (∃ e t' tl, r = some (e, t') ∧
         idxOf s c t' = (e.key_id, e.fetched_at) :: tl ∧
         idxOf s1 c t' = tl ∧
         (∀ t'', t'' ≠ t' → idxOf s1 c t'' = idxOf s c t'') ∧
         alookup s1.recs (c, e.key_id) = none ∧
         (∀ q, q ≠ (c, e.key_id) → alookup s1.recs q = alookup s.recs q) ∧
         alookup s.recs (c, e.key_id) = some e)) := by
  have hsel : select_coin_src s c t0 now0 =
      .ok (selectLoop c now0 s (tiersToTry t0)) := by
    unfold select_coin_src
    rw [hreg]
  rcases selectLoop_spec c now0 (tiersToTry t0) s hwf with
    ⟨hnone, hall⟩ | ⟨e, t', pre, post, hres, hsplit, hpre, hhd, hcat, hrec⟩
  · have hstate : selectLoop c now0 s (tiersToTry t0) = (none, s) :=
      selectLoop_none_state c now0 _ s hall
    refine ⟨none, s, ?_, hwf, hreg, Or.inl ⟨rfl, rfl⟩⟩
    rw [hsel, hstate]
  · rcases hidx0 : idxOf s c t' with _ | ⟨⟨k, sc⟩, tl⟩
    · rw [hidx0] at hhd
      cases hhd
    · rw [hidx0] at hhd
      have hpair : (k, sc) = (e.key_id, e.fetched_at) := by injection hhd
      have hk : k = e.key_id := congrArg Prod.fst hpair
      have hsc : sc = e.fetched_at := congrArg Prod.snd hpair
      subst hk
      subst hsc
      have hstate := selectLoop_eq_of_first c now0 pre t' post s hpre
        e.key_id e.fetched_at tl hidx0 e hrec
      rw [hsplit] at hsel
      rw [hstate] at hsel
      set sMid : InvState := { s with
        idx := aupdate s.idx (c, t') tl,
        recs := aremove s.recs (c, e.key_id) } with hsMid
      refine ⟨some (e, t'), touchLastMsg sMid c now0, hsel, ?_, ?_,
        Or.inr ⟨e, t', tl, rfl, hidx0, ?_, ?_, ?_, ?_, hrec⟩⟩
      · -- well-formedness is preserved
        obtain ⟨hlink, hsort, hmem, hrnd, hikey⟩ := hwf
        have hnodup' : (zmembers (idxOf s c t')).Nodup := nodup_idxOf hmem c t'
        have hknotin : e.key_id ∉ zmembers tl := by
          rw [hidx0] at hnodup'
          simp only [zmembers, List.map_cons, List.nodup_cons] at hnodup'
          exact hnodup'.1
        have hidxmem : ∀ q ∈ (touchLastMsg sMid c now0).idx,
            q = ((c, t'), tl) ∨ (q ∈ s.idx ∧ q.1 ≠ (c, t')) := by
          intro q hq
          rw [touchLastMsg_idx_eq] at hq
          exact mem_aupdate_nodup hikey hq
        refine ⟨?_, ?_, ?_, ?_, ?_⟩
        · intro q hq kv hkv
          rw [show (touchLastMsg sMid c now0).recs = aremove s.recs (c, e.key_id) by
            rw [touchLastMsg_recs]]
          rcases hidxmem q hq with rfl | ⟨hq', hqne⟩
          · have hkv' : kv ∈ idxOf s c t' := by
              rw [hidx0]
              exact List.mem_cons_of_mem _ hkv
            have := linked_idxOf hlink c t' kv hkv'
            have hne : (c, kv.1) ≠ (c, e.key_id) := by
              intro hq
              apply hknotin
              have : kv.1 = e.key_id := (Prod.mk.injEq .. ▸ hq).2
              rw [← this]
              exact List.mem_map_of_mem Prod.fst hkv
            rw [alookup_aremove_ne _ _ _ hne]
            exact this
          · have := hlink q hq' kv hkv
            have hne : (q.1.1, kv.1) ≠ (c, e.key_id) := by
              intro heq
              have hc1 : q.1.1 = c := (Prod.mk.injEq .. ▸ heq).1
              have hk1 : kv.1 = e.key_id := (Prod.mk.injEq .. ▸ heq).2
              -- q is the index of (c, q.1.2) with q.1.2 ≠ t', yet its member
              -- e.key_id has a record of tier t': I1 contradiction
              have ht2 : q.1.2 ≠ t' := by
                intro h2
                apply hqne
                obtain ⟨⟨qc, qt⟩, ql⟩ := q
                simp only [] at hc1 h2
                rw [hc1, h2]
              have hlink2 := hlink q hq' kv hkv
              rw [hc1, hk1, hrec] at hlink2
              simp only [Option.map_some'] at hlink2
              injection hlink2 with hlink2
              have : e.coin_category = q.1.2 :=
                congrArg Prod.fst (congrArg Prod.snd hlink2)
              exact ht2 (this.symm.trans hcat)
            rw [alookup_aremove_ne _ _ _ hne]
            exact this
        · intro q hq
          rcases hidxmem q hq with rfl | ⟨hq', _⟩
          · have : ZSorted (idxOf s c t') := sorted_idxOf hsort c t'
            rw [hidx0] at this
            exact (List.pairwise_cons.mp this).2
          · exact hsort q hq'
        · intro q hq
          rcases hidxmem q hq with rfl | ⟨hq', _⟩
          · have : (zmembers (idxOf s c t')).Nodup := hnodup'
            rw [hidx0] at this
            simp only [zmembers, List.map_cons, List.nodup_cons] at this
            exact this.2
          · exact hmem q hq'
        · rw [show (touchLastMsg sMid c now0).recs = aremove s.recs (c, e.key_id) by
            rw [touchLastMsg_recs]]
          exact (aremove_keys_sublist _ _).nodup hrnd
        · rw [touchLastMsg_idx_eq]
          exact aupdate_keys_nodup _ _ hikey
      · rw [touchLastMsg_priority]
        exact hreg
      · rw [show idxOf (touchLastMsg sMid c now0) c t' = idxOf sMid c t' by
          unfold idxOf
          rw [touchLastMsg_idx_eq]]
        exact idxOf_update_self _ _ _ _ _
      · intro t'' hne
        rw [show idxOf (touchLastMsg sMid c now0) c t'' = idxOf sMid c t'' by
          unfold idxOf
          rw [touchLastMsg_idx_eq]]
        exact idxOf_update_ne s _ _ (by
          intro h
          exact hne (Prod.mk.injEq .. ▸ h).2)
      · rw [show (touchLastMsg sMid c now0).recs = aremove s.recs (c, e.key_id) by
          rw [touchLastMsg_recs]]
        exact alookup_aremove_self_of_nodup _ hwf.2.2.2.1
      · intro q hq
        rw [show (touchLastMsg sMid c now0).recs = aremove s.recs (c, e.key_id) by
          rw [touchLastMsg_recs]]
        exact alookup_aremove_ne _ _ _ hq

theorem mem_insertRow {q r : CoinRow} {l : List CoinRow} :
    q ∈ insertRow r l ↔ q = r ∨ q ∈ l := by
  induction l with
  | nil =>
    rw [insertRow]
    simp
  | cons h t ih =>
    by_cases hc : h.uploaded_at ≤ r.uploaded_at
    · rw [insertRow, if_pos hc]
      constructor
      · intro hq
        rcases List.mem_cons.mp hq with rfl | hq
        · exact Or.inr (List.mem_cons_self _ _)
        · rcases ih.mp hq with h' | h'
          · exact Or.inl h'
          · exact Or.inr (List.mem_cons_of_mem _ h')
      · intro hq
        rcases hq with rfl | hq
        · exact List.mem_cons_of_mem _ (ih.mpr (Or.inl rfl))
        · rcases List.mem_cons.mp hq with rfl | hq
          · exact List.mem_cons_self _ _
          · exact List.mem_cons_of_mem _ (ih.mpr (Or.inr hq))
    · rw [insertRow, if_neg hc]
      constructor
      · intro hq
        rcases List.mem_cons.mp hq with rfl | hq
        · exact Or.inl rfl
        · exact Or.inr hq
      · intro hq
        rcases hq with rfl | hq
        · exact List.mem_cons_self _ _
        · exact List.mem_cons_of_mem _ hq

theorem insertRow_sorted {l : List CoinRow} (hs : l.Pairwise rowLe) (r : CoinRow) :
    (insertRow r l).Pairwise rowLe := by
  induction l with
  | nil =>
    rw [insertRow]
    simp [List.pairwise_cons]
  | cons h t ih =>
    obtain ⟨hh, ht⟩ := List.pairwise_cons.mp hs
    by_cases hc : h.uploaded_at ≤ r.uploaded_at
    · rw [insertRow, if_pos hc]
      refine List.pairwise_cons.mpr ⟨?_, ih ht⟩
      intro q hq
      rcases mem_insertRow.mp hq with rfl | hq
      · exact hc
      · exact hh q hq
    · rw [insertRow, if_neg hc]
      refine List.pairwise_cons.mpr ⟨?_, hs⟩
      intro q hq
      rcases List.mem_cons.mp hq with rfl | hq
      · exact le_of_not_le hc
      · exact le_trans (le_of_not_le hc) (hh q hq)

theorem sortRows_fold_sorted (l : List CoinRow) :
    ∀ acc, acc.Pairwise rowLe →
      (l.foldl (fun acc r => insertRow r acc) acc).Pairwise rowLe := by
  induction l with
  | nil => exact fun acc h => h
  | cons r rest ih => exact fun acc h => ih (insertRow r acc) (insertRow_sorted h r)

theorem sortRows_sorted (l : List CoinRow) : (sortRows l).Pairwise rowLe :=
  sortRows_fold_sorted l [] List.Pairwise.nil

theorem sortRows_fold_mem (l : List CoinRow) :
    ∀ acc q, q ∈ l.foldl (fun acc r => insertRow r acc) acc ↔ q ∈ acc ∨ q ∈ l := by
  induction l with
  | nil =>
    intro acc q
    simp
  | cons r rest ih =>
    intro acc q
    show q ∈ rest.foldl _ (insertRow r acc) ↔ _
    rw [ih (insertRow r acc) q]
    constructor
    · intro h
      rcases h with h | h
      · rcases mem_insertRow.mp h with rfl | h
        · exact Or.inr (List.mem_cons_self _ _)
        · exact Or.inl h
      · exact Or.inr (List.mem_cons_of_mem _ h)
    · intro h
      rcases h with h | h
      · exact Or.inl (mem_insertRow.mpr (Or.inr h))
      · rcases List.mem_cons.mp h with rfl | h
        · exact Or.inl (mem_insertRow.mpr (Or.inl rfl))
        · exact Or.inr h

theorem mem_sortRows {l : List CoinRow} {q : CoinRow} : q ∈ sortRows l ↔ q ∈ l := by
  rw [sortRows, sortRows_fold_mem l [] q]
  simp

/-- Every row a `fetch_coins` call returns is an unclaimed row of the
requested `(user, category)` in the pre-state. -/
theorem fetch_sel_spec (s : SrvState) (target requester : String) (t : Tier)
    (cnt now : Nat) :
    ∀ r ∈ (fetch_coins s target requester t cnt now).1,
      r ∈ s.rows ∧ r.user_id = target ∧ r.coin_category = t ∧ r.fetched_by = none := by
  intro r hr
  have hr' : r ∈ sortRows (unclaimedFor s target t) :=
    ((sortRows (unclaimedFor s target t)).take_sublist cnt).mem hr
  have hr'' : r ∈ unclaimedFor s target t := mem_sortRows.mp hr'
  rw [unclaimedFor, List.mem_filter] at hr''
  refine ⟨hr''.1, ?_⟩
  have := hr''.2
  simp only [decide_eq_true_eq] at this
  exact this

theorem upload_fold_facts (uid : String) (now : Nat) :
    ∀ (coins : List CoinUpload) (acc : Nat × SrvState),
      acc.2.next_id ≤ (coins.foldl (uploadStep uid now) acc).2.next_id ∧
      (∀ r ∈ (coins.foldl (uploadStep uid now) acc).2.rows,
        r ∈ acc.2.rows ∨ acc.2.next_id ≤ r.record_id) ∧
      (SrvWF acc.2 → SrvWF (coins.foldl (uploadStep uid now) acc).2) := by
  intro coins
  induction coins with
  | nil => exact fun acc => ⟨le_refl _, fun r hr => Or.inl hr, fun h => h⟩
  | cons coin rest ih =>
    intro acc
    rw [List.foldl_cons]
    by_cases hdup : acc.2.rows.any
        (fun r => decide (r.user_id = uid ∧ r.key_id = coin.key_id))
    · rw [show uploadStep uid now acc coin = acc by rw [uploadStep, if_pos hdup]]
      exact ih acc
    · rw [show uploadStep uid now acc coin = (acc.1 + 1,
        ⟨acc.2.rows ++ [⟨acc.2.next_id, uid, coin.key_id, coin.coin_category,
          coin.public_key_blob, coin.signature_blob, now, none, none⟩],
         acc.2.next_id + 1⟩) by rw [uploadStep, if_neg hdup]]
      set newRow : CoinRow := ⟨acc.2.next_id, uid, coin.key_id, coin.coin_category,
        coin.public_key_blob, coin.signature_blob, now, none, none⟩ with hnew
      set acc' : Nat × SrvState :=
        (acc.1 + 1, ⟨acc.2.rows ++ [newRow], acc.2.next_id + 1⟩) with hacc'
      obtain ⟨h1, h2, h3⟩ := ih acc'
      refine ⟨le_trans (Nat.le_succ _) h1, ?_, ?_⟩
      · intro r hr
        rcases h2 r hr with hr' | hr'
        · rcases List.mem_append.mp hr' with hr'' | hr''
          · exact Or.inl hr''
          · right
            rw [List.mem_singleton.mp hr'']
        · exact Or.inr (le_trans (Nat.le_succ _) hr')
      · intro hwf
        refine h3 ⟨?_, ?_⟩
        · show ((acc.2.rows ++ [newRow]).map (·.record_id)).Nodup
          rw [List.map_append, List.nodup_append]
          refine ⟨hwf.1, List.nodup_singleton _, ?_⟩
          intro x hx hx'
          rcases List.mem_map.mp hx with ⟨r, hr, hrx⟩
          have hlt := hwf.2 r hr
          rw [hrx] at hlt
          rw [List.map_singleton, List.mem_singleton] at hx'
          rw [hx'] at hlt
          exact Nat.lt_irrefl _ hlt
        · intro r hr
          rcases List.mem_append.mp hr with hr' | hr'
          · exact Nat.lt_succ_of_lt (hwf.2 r hr')
          · rw [List.mem_singleton.mp hr']
            exact Nat.lt_succ_self _

theorem upload_claimed (s : SrvState) (uid : String) (coins : List CoinUpload)
    (now : Nat) {rid : Nat} (hlt : rid < s.next_id) (hc : Claimed s rid) :
    Claimed (upload_coins s uid coins now).2 rid := by
  intro row hrow hid
  rcases (upload_fold_facts uid now coins (0, s)).2.1 row hrow with h | h
  · exact hc row h hid
  · rw [hid] at h
    exact absurd hlt (Nat.not_lt_of_le h)

theorem filter_rows_wf (s : SrvState) (g : CoinRow → Bool) (hwf : SrvWF s) :
    SrvWF { s with rows := s.rows.filter g } := by
  have hsub : (s.rows.filter g).Sublist s.rows := List.filter_sublist s.rows
  constructor
  · exact (hsub.map (·.record_id)).nodup hwf.1
  · intro r hr
    exact hwf.2 r (hsub.mem hr)

theorem filter_rows_claimed (s : SrvState) (g : CoinRow → Bool) {rid : Nat}
    (hc : Claimed s rid) : Claimed { s with rows := s.rows.filter g } rid := by
  have hsub : (s.rows.filter g).Sublist s.rows := List.filter_sublist s.rows
  intro row hrow hid
  exact hc row (hsub.mem hrow) hid

theorem fetch_rows_src (s : SrvState) (target requester : String) (t : Tier)
    (cnt now : Nat) :
    ∀ row ∈ (fetch_coins s target requester t cnt now).2.rows,
      ∃ row0 ∈ s.rows, row.record_id = row0.record_id ∧
        (row.fetched_by = some requester ∨ row = row0) ∧
        (row0.record_id ∈ ((fetch_coins s target requester t cnt now).1.map
          (·.record_id)) → row.fetched_by = some requester) := by
  intro row hrow
  rcases List.mem_map.mp hrow with ⟨row0, hrow0, heq⟩
  by_cases hc : row0.record_id ∈ List.map (fun x => x.record_id)
      (List.take cnt (sortRows (unclaimedFor s target t)))
  · refine ⟨row0, hrow0, ?_, ?_, ?_⟩
    · rw [← heq, if_pos hc]
    · left
      rw [← heq, if_pos hc]
    · intro _
      rw [← heq, if_pos hc]
  · refine ⟨row0, hrow0, ?_, ?_, ?_⟩
    · rw [← heq, if_neg hc]
    · right
      rw [← heq, if_neg hc]
    · intro hmem
      exact absurd hmem hc

theorem fetch_wf (s : SrvState) (target requester : String) (t : Tier)
    (cnt now : Nat) (hwf : SrvWF s) :
    SrvWF (fetch_coins s target requester t cnt now).2 := by
  constructor
  · have hfix : (fetch_coins s target requester t cnt now).2.rows =
        s.rows.map (fun r =>
          if r.record_id ∈ (((sortRows (unclaimedFor s target t)).take cnt).map
            (·.record_id))
          then { r with fetched_by := some requester, fetched_at := some now }
          else r) := rfl
    have hrows : (fetch_coins s target requester t cnt now).2.rows.map
        (·.record_id) = s.rows.map (·.record_id) := by
      rw [hfix, List.map_map]
      refine List.map_congr_left ?_
      intro r _
      simp only [Function.comp_apply]
      split
      · rfl
      · rfl
    rw [hrows]
    exact hwf.1
  · intro row hrow
    rcases fetch_rows_src s target requester t cnt now row hrow with
      ⟨row0, hrow0, hid0, _, _⟩
    rw [hid0]
    exact hwf.2 row0 hrow0

theorem fetch_claimed_old (s : SrvState) (target requester : String) (t : Tier)
    (cnt now : Nat) {rid : Nat} (hc : Claimed s rid) :
    Claimed (fetch_coins s target requester t cnt now).2 rid := by
  intro row hrow hid
  rcases fetch_rows_src s target requester t cnt now row hrow with
    ⟨row0, hrow0, hid0, hmark, _⟩
  rcases hmark with hm | hm
  · rw [hm]
    intro h
    cases h
  · rw [hm]
    exact hc row0 hrow0 (hid0.symm.trans hid)

theorem fetch_claimed_new (s : SrvState) (target requester : String) (t : Tier)
    (cnt now : Nat) {rid : Nat}
    (hmem : rid ∈ ((fetch_coins s target requester t cnt now).1.map (·.record_id))) :
    Claimed (fetch_coins s target requester t cnt now).2 rid := by
  intro row hrow hid
  rcases fetch_rows_src s target requester t cnt now row hrow with
    ⟨row0, hrow0, hid0, _, hmarkif⟩
  have hrid0 : row0.record_id = rid := hid0.symm.trans hid
  rw [hmarkif (by rw [hrid0]; exact hmem)]
  intro h
  cases h

/-- Single delivery across a trace: the row batches returned by the fetch
operations of any trace from the empty database are pairwise disjoint on
`record_id`, and no batch contains a record id already delivered. -/
theorem fetchResults_aux :
    ∀ (ops : List SrvOp) (s : SrvState) (past : List Nat),
      SrvWF s → (∀ rid ∈ past, rid < s.next_id ∧ Claimed s rid) →
      (fetchResults s ops).Pairwise
        (fun a b => ∀ r ∈ a, ∀ r' ∈ b, r.record_id ≠ r'.record_id) ∧
      (∀ res ∈ fetchResults s ops, ∀ r ∈ res, r.record_id ∉ past) := by
  intro ops
  induction ops with
  | nil =>
    intro s past _ _
    exact ⟨List.Pairwise.nil, fun res hres => by cases hres⟩
  | cons op rest ih =>
    intro s past hwf hpast
    cases op with
    | upload uid coins now =>
      have hres : fetchResults s (.upload uid coins now :: rest) =
          fetchResults (upload_coins s uid coins now).2 rest := rfl
      rw [hres]
      refine ih _ past ((upload_fold_facts uid now coins (0, s)).2.2 hwf) ?_
      intro rid hrid
      refine ⟨lt_of_lt_of_le (hpast rid hrid).1
        (upload_fold_facts uid now coins (0, s)).1, ?_⟩
      exact upload_claimed s uid coins now (hpast rid hrid).1 (hpast rid hrid).2
    | purge d now =>
      have hres : fetchResults s (.purge d now :: rest) =
          fetchResults (purge_stale s d now).2 rest := rfl
      rw [hres]
      refine ih _ past (filter_rows_wf s _ hwf) ?_
      intro rid hrid
      exact ⟨(hpast rid hrid).1, filter_rows_claimed s _ (hpast rid hrid).2⟩
    | hardDelete g now =>
      have hres : fetchResults s (.hardDelete g now :: rest) =
          fetchResults (hard_delete_fetched s g now).2 rest := rfl
      rw [hres]
      refine ih _ past (filter_rows_wf s _ hwf) ?_
      intro rid hrid
      exact ⟨(hpast rid hrid).1, filter_rows_claimed s _ (hpast rid hrid).2⟩
    | fetch target requester t cnt now =>
      have hres : fetchResults s (.fetch target requester t cnt now :: rest) =
          (fetch_coins s target requester t cnt now).1 ::
            fetchResults (fetch_coins s target requester t cnt now).2 rest := rfl
      rw [hres]
      set res := (fetch_coins s target requester t cnt now).1 with hresdef
      have hnotpast : ∀ r ∈ res, r.record_id ∉ past := by
        intro r hr hmem
        obtain ⟨hrow, _, _, hunc⟩ := fetch_sel_spec s target requester t cnt now r hr
        exact ((hpast r.record_id hmem).2 r hrow rfl) hunc
      have hpast' : ∀ rid ∈ past ++ res.map (·.record_id),
          rid < (fetch_coins s target requester t cnt now).2.next_id ∧
          Claimed (fetch_coins s target requester t cnt now).2 rid := by
        intro rid hrid
        rcases List.mem_append.mp hrid with hrid | hrid
        · exact ⟨(hpast rid hrid).1,
            fetch_claimed_old s target requester t cnt now (hpast rid hrid).2⟩
        · refine ⟨?_, fetch_claimed_new s target requester t cnt now hrid⟩
          rcases List.mem_map.mp hrid with ⟨r, hr, hridr⟩
          rw [← hridr]
          exact hwf.2 r (fetch_sel_spec s target requester t cnt now r hr).1
      obtain ⟨hpw, hnotin⟩ := ih (fetch_coins s target requester t cnt now).2
        (past ++ res.map (·.record_id))
        (fetch_wf s target requester t cnt now hwf) hpast'
      refine ⟨List.pairwise_cons.mpr ⟨?_, hpw⟩, ?_⟩
      · intro res2 hres2 r hr r' hr'
        intro heq
        apply hnotin res2 hres2 r' hr'
        rw [← heq]
        exact List.mem_append.mpr (Or.inr (List.mem_map_of_mem _ hr))
      · intro res0 hres0 r hr
        rcases List.mem_cons.mp hres0 with rfl | hres0
        · exact hnotpast r hr
        · intro hmem
          exact hnotin res0 hres0 r hr (List.mem_append.mpr (Or.inl hmem))

/-- C2.  Across any trace of server operations from the empty database,
the row batches returned by `fetch_coins` calls are pairwise disjoint on
`record_id` — once a row's `fetched_by` is set by one call, no later call
returns it (a returned row is marked in the post-state, only
`fetched_by IS NULL` rows are ever selected, and deleted ids are never
reused).  A single `fetch_coins(target, requester, category, count)` call
returns exactly the `count`-prefix of the unclaimed `(target, category)`
rows ordered by `uploaded_at` ascending: at most `count` rows, in
non-decreasing `uploaded_at` order, all unclaimed rows of the requested
user and category in the pre-state, never a previously claimed row, and
each returned row is marked `fetched_by = requester` in the post-state. -/
theorem C2_fetch_single_delivery :
    (∀ ops : List SrvOp, (fetchResults srvInit ops).Pairwise
      (fun a b => ∀ r ∈ a, ∀ r' ∈ b, r.record_id ≠ r'.record_id)) ∧
    (∀ (s : SrvState) (target requester : String) (t : Tier) (cnt now : Nat),
      (fetch_coins s target requester t cnt now).1 =
        (sortRows (unclaimedFor s target t)).take cnt ∧
      (fetch_coins s target requester t cnt now).1.length ≤ cnt ∧
      (fetch_coins s target requester t cnt now).1.Pairwise rowLe ∧
      (∀ r ∈ (fetch_coins s target requester t cnt now).1,
        r ∈ s.rows ∧ r.user_id = target ∧ r.coin_category = t ∧
          r.fetched_by = none) ∧
      (∀ r ∈ s.rows, r.fetched_by ≠ none →
        r ∉ (fetch_coins s target requester t cnt now).1) ∧
      (∀ r ∈ (fetch_coins s target requester t cnt now).1,
        ∀ row ∈ (fetch_coins s target requester t cnt now).2.rows,
          row.record_id = r.record_id → row.fetched_by = some requester)) := by
  constructor
  · intro ops
    exact (fetchResults_aux ops srvInit []
      ⟨List.Pairwise.nil, fun r hr => by cases hr⟩
      (fun rid hrid => by cases hrid)).1
  · intro s target requester t cnt now
    refine ⟨rfl, ?_, ?_, fetch_sel_spec s target requester t cnt now, ?_, ?_⟩
    · show ((sortRows (unclaimedFor s target t)).take cnt).length ≤ cnt
      rw [List.length_take]
      exact Nat.min_le_left _ _
    · exact List.Pairwise.sublist
        ((sortRows (unclaimedFor s target t)).take_sublist cnt)
        (sortRows_sorted _)
    · intro r hr hcl hmem
      exact hcl (fetch_sel_spec s target requester t cnt now r hmem).2.2.2
    · intro r hr row hrow hid
      rcases fetch_rows_src s target requester t cnt now row hrow with
        ⟨row0, hrow0, hid0, _, hmark⟩
      exact hmark (by
        rw [hid0.symm.trans hid]
        exact List.mem_map_of_mem _ hr)

/-- C2 witness: the trace conjunct applied to a three-coin upload followed
by two overlapping fetches, and the per-call conjunct applied to the
uploaded state. -/
theorem C2_fetch_single_delivery_witness :
    ((fetchResults srvInit c2Trace).Pairwise
      (fun a b => ∀ r ∈ a, ∀ r' ∈ b, r.record_id ≠ r'.record_id)) ∧
    ((fetch_coins c2State "bob" "alice" SILVER 2 9).1 =
        (sortRows (unclaimedFor c2State "bob" SILVER)).take 2 ∧
      (fetch_coins c2State "bob" "alice" SILVER 2 9).1.length ≤ 2 ∧
      (fetch_coins c2State "bob" "alice" SILVER 2 9).1.Pairwise rowLe ∧
      (∀ r ∈ (fetch_coins c2State "bob" "alice" SILVER 2 9).1,
        r ∈ c2State.rows ∧ r.user_id = "bob" ∧ r.coin_category = SILVER ∧
          r.fetched_by = none) ∧
      (∀ r ∈ c2State.rows, r.fetched_by ≠ none →
        r ∉ (fetch_coins c2State "bob" "alice" SILVER 2 9).1) ∧
      (∀ r ∈ (fetch_coins c2State "bob" "alice" SILVER 2 9).1,
        ∀ row ∈ (fetch_coins c2State "bob" "alice" SILVER 2 9).2.rows,
          row.record_id = r.record_id → row.fetched_by = some "alice")) :=
  ⟨C2_fetch_single_delivery.1 c2Trace,
   C2_fetch_single_delivery.2 c2State "bob" "alice" SILVER 2 9⟩

/-- Shape of `store_key` errors: either the contact is unregistered or a
budget failure naming the call's contact and tier. -/
theorem store_key_error_shape (s : InvState) (c k : String) (t : Tier)
    (pk sig : String) (now : Nat) (e : InvError)
    (h : store_key s c k t pk sig now = .error e) :
    e = .contactNotRegistered c ∨
    ∃ cur cap, e = .budgetExceeded c t cur cap := by
  unfold store_key at h
  rcases hp : getPriority s c with _ | p
  · rw [hp] at h
    injection h with h
    exact Or.inl h.symm
  · rw [hp] at h
    simp only [] at h
    by_cases hcap : BUDGET_CAPS p t = 0
    · rw [if_pos hcap] at h
      injection h with h
      exact Or.inr ⟨0, 0, h.symm⟩
    · rw [if_neg hcap] at h
      by_cases hcur : BUDGET_CAPS p t ≤ (idxOf s c t).length
      · rw [if_pos hcur] at h
        injection h with h
        exact Or.inr ⟨(idxOf s c t).length, BUDGET_CAPS p t, h.symm⟩
      · rw [if_neg hcur] at h
        cases h

/-- Specification of the bridge store loop: on a non-raising run it
returns a prefix of its input, the final inventory is the result of
storing exactly that prefix in order, and when the prefix is proper the
very next store fails with `BudgetExceeded`. -/
theorem cacheLoop_spec (c : String) (now : Nat) :
    ∀ (coins : List CoinRecord) (inv : InvState) (cached : List CoinRecord)
      (inv' : InvState), cacheLoop inv c now coins = .ok (cached, inv') →
      cached = coins.take cached.length ∧ cached.length ≤ coins.length ∧
      storeSeq inv c now cached = .ok inv' ∧
      (∀ coin rest2, coins.drop cached.length = coin :: rest2 →
        ∃ cur cap, store_key inv' c coin.key_id coin.coin_category
          coin.public_key_blob coin.signature_blob now =
          .error (.budgetExceeded c coin.coin_category cur cap)) := by
  intro coins
  induction coins with
  | nil =>
    intro inv cached inv' h
    rw [cacheLoop] at h
    injection h with h
    have hc : cached = [] := (congrArg Prod.fst h).symm
    have hi : inv' = inv := (congrArg Prod.snd h).symm
    subst hc
    subst hi
    exact ⟨rfl, le_refl _, rfl, fun coin rest2 h' => by cases h'⟩
  | cons coin rest ih =>
    intro inv cached inv' h
    rw [cacheLoop] at h
    split at h
    · -- successful store, recurse
      rename_i fst inv1 heq
      rcases hrec : cacheLoop inv1 c now rest with e2 | ⟨cs, invF⟩
      · rw [hrec] at h
        cases h
      · rw [hrec] at h
        injection h with h
        have hc : cached = coin :: cs := (congrArg Prod.fst h).symm
        have hi : inv' = invF := (congrArg Prod.snd h).symm
        obtain ⟨ih1, ih2, ih3, ih4⟩ := ih inv1 cs invF hrec
        subst hc
        subst hi
        refine ⟨?_, ?_, ?_, ?_⟩
        · rw [List.length_cons, List.take_succ_cons, ← ih1]
        · rw [List.length_cons]
          exact Nat.succ_le_succ ih2
        · rw [storeSeq, heq]
          exact ih3
        · intro coin2 rest2 h'
          rw [List.length_cons, List.drop_succ_cons] at h'
          exact ih4 coin2 rest2 h'
    · -- BudgetExceededError: break with the empty suffix
      rename_i a b cur cap heq
      injection h with h
      have hc : cached = [] := (congrArg Prod.fst h).symm
      have hi : inv' = inv := (congrArg Prod.snd h).symm
      subst hc
      subst hi
      refine ⟨rfl, Nat.zero_le _, rfl, ?_⟩
      intro coin2 rest2 h'
      simp only [List.length_nil, List.drop_zero] at h'
      injection h' with h1 h2
      subst h1
      rcases store_key_error_shape _ _ _ _ _ _ _ _ heq with he | ⟨cur', cap', he⟩
      · cases he
      · injection he with he1 he2 he3 he4
        subst he1
        subst he2
        exact ⟨cur, cap, heq⟩
    · -- any other exception propagates: contradiction with the ok result
      cases h

/-- C6: `fetch_and_cache` stores the claimed coins into the inventory in
the order the server returned them and stops eagerly on the first
`BudgetExceeded` failure: on an `.ok` run the returned server state is
exactly the fetch transaction's, the cached list is the prefix of the
claimed coins of its own length, the final inventory is the plain
sequential store of exactly that prefix (so no store beyond it was
committed), and whenever some claimed coins were not cached the very next
one's store on the final inventory fails with `BudgetExceeded`. -/
theorem C6_fetch_and_cache (srv : SrvState) (inv : InvState)
    (c target requester : String) (t : Tier) (cnt now : Nat)
    (cached : List CoinRecord) (srv2 : SrvState) (inv2 : InvState)
    (h : fetch_and_cache srv inv c target requester t cnt now =
      .ok (cached, srv2, inv2)) :
    srv2 = (fetch_coins srv target requester t cnt now).2 ∧
    cached = ((fetch_coins srv target requester t cnt now).1.map
      (toCoinRecord t)).take cached.length ∧
    storeSeq inv c now cached = .ok inv2 ∧
    (∀ coin rest2,
      ((fetch_coins srv target requester t cnt now).1.map
        (toCoinRecord t)).drop cached.length = coin :: rest2 →
      ∃ cur cap, store_key inv2 c coin.key_id coin.coin_category
        coin.public_key_blob coin.signature_blob now =
        .error (.budgetExceeded c coin.coin_category cur cap)) := by
  simp only [fetch_and_cache] at h
  rcases hcl : cacheLoop inv c now
      ((fetch_coins srv target requester t cnt now).1.map (toCoinRecord t))
    with e | ⟨cs, invF⟩
  · rw [hcl] at h
    cases h
  · rw [hcl] at h
    injection h with h
    have hc : cached = cs := (congrArg Prod.fst h).symm
    have hs : srv2 = (fetch_coins srv target requester t cnt now).2 :=
      (congrArg (fun p => p.2.1) h).symm
    have hi : inv2 = invF := (congrArg (fun p => p.2.2) h).symm
    obtain ⟨s1, _, s3, s4⟩ := cacheLoop_spec c now
      ((fetch_coins srv target requester t cnt now).1.map (toCoinRecord t))
      inv cs invF hcl
    subst hc
    subst hs
    subst hi
    exact ⟨rfl, s1, s3, s4⟩

theorem C6_fetch_and_cache_witness :
    fetch_and_cache c6Srv c6Inv "bob" "target" "alice" Tier.BRONZE 2 20 =
      .ok (c6Cached, c6Srv2, c6Inv2) ∧
    (c6Srv2 = (fetch_coins c6Srv "target" "alice" Tier.BRONZE 2 20).2 ∧
     c6Cached = ((fetch_coins c6Srv "target" "alice" Tier.BRONZE 2 20).1.map
       (toCoinRecord Tier.BRONZE)).take c6Cached.length ∧
     storeSeq c6Inv "bob" 20 c6Cached = .ok c6Inv2 ∧
     (∀ coin rest2,
       ((fetch_coins c6Srv "target" "alice" Tier.BRONZE 2 20).1.map
         (toCoinRecord Tier.BRONZE)).drop c6Cached.length = coin :: rest2 →
       ∃ cur cap, store_key c6Inv2 "bob" coin.key_id coin.coin_category
         coin.public_key_blob coin.signature_blob 20 =
         .error (.budgetExceeded "bob" coin.coin_category cur cap))) :=
  ⟨by decide,
   C6_fetch_and_cache c6Srv c6Inv "bob" "target" "alice" Tier.BRONZE 2 20
     c6Cached c6Srv2 c6Inv2 (by decide)⟩

/-- A successful `syncTier` call on the deficit `cap - current` realises
the per-tier contract. -/
theorem syncTier_ok {srv : SrvState} {inv : InvState}
    {c target requester : String} {t : Tier} {cap cur now n : Nat}
    {srv2 : SrvState} {inv2 : InvState}
    (h : syncTier srv inv c target requester t ((cap : Int) - (cur : Int)) now =
      .ok (n, srv2, inv2)) :
    c7TierStep srv inv c target requester t cap cur now n srv2 inv2 := by
  unfold syncTier at h
  by_cases hd : ((cap : Int) - (cur : Int)) ≤ 0
  · rw [if_pos hd] at h
    injection h with h
    exact Or.inl ⟨max_eq_left hd, (congrArg (fun p => p.1) h).symm,
      (congrArg (fun p => p.2.1) h).symm, (congrArg (fun p => p.2.2) h).symm⟩
  · rw [if_neg hd] at h
    have hpos : (0 : Int) < (cap : Int) - (cur : Int) := not_le.mp hd
    have hmax : max 0 ((cap : Int) - (cur : Int)) = (cap : Int) - (cur : Int) :=
      max_eq_right hpos.le
    rcases hf : fetch_and_cache srv inv c target requester t
        ((cap : Int) - (cur : Int)).toNat now with e | ⟨cached, s2, i2⟩
    · rw [hf] at h
      cases h
    · rw [hf] at h
      injection h with h
      refine Or.inr ⟨?_, cached, ?_, (congrArg (fun p => p.1) h).symm⟩
      · rw [hmax]
        exact hpos
      · rw [hmax]
        have hs : s2 = srv2 := congrArg (fun p => p.2.1) h
        have hi2 : i2 = inv2 := congrArg (fun p => p.2.2) h
        rw [← hs, ← hi2]
        exact hf

/-- A non-positive deficit makes `syncTier` a no-op reporting zero. -/
theorem syncTier_skip {srv : SrvState} {inv : InvState}
    {c target requester : String} {t : Tier} {deficit : Int} {now : Nat}
    (hd : deficit ≤ 0) :
    syncTier srv inv c target requester t deficit now = .ok (0, srv, inv) := by
  unfold syncTier
  rw [if_pos hd]

/-- For a registered contact the summary holds the three tier-index
cardinalities and the meta priority. -/
theorem summary_of_meta {inv : InvState} {c : String} {m : ContactMeta}
    (hm : get_contact_meta inv c = some m) :
    get_inventory_summary inv c = .ok ⟨c, (idxOf inv c GOLD).length,
      (idxOf inv c SILVER).length, (idxOf inv c BRONZE).length, m.priority⟩ := by
  have hl : alookup inv.meta c = some m := hm
  unfold get_inventory_summary
  rw [hl]

/-- C7: `sync_inventory` computes `deficit = max(0, cap - current)` per
tier from the contact's current priority and the counts read once up
front, calls `fetch_and_cache` for exactly that deficit when positive,
and returns the per-tier fetched counts; an unregistered contact yields
zeros with both stores untouched, and a contact already at cap on every
tier yields zeros with both stores untouched. -/
theorem C7_sync_inventory (srv : SrvState) (inv : InvState)
    (c target requester : String) (now : Nat) :
    (get_contact_meta inv c = none →
      sync_inventory srv inv c target requester now = .ok (⟨0, 0, 0⟩, srv, inv)) ∧
    (∀ m, get_contact_meta inv c = some m →
      (∀ counts srv3 inv3,
        sync_inventory srv inv c target requester now = .ok (counts, srv3, inv3) →
        ∃ srv1 inv1 srv2 inv2,
          c7TierStep srv inv c target requester GOLD
            (BUDGET_CAPS m.priority GOLD) (idxOf inv c GOLD).length now
            counts.gold srv1 inv1 ∧
          c7TierStep srv1 inv1 c target requester SILVER
            (BUDGET_CAPS m.priority SILVER) (idxOf inv c SILVER).length now
            counts.silver srv2 inv2 ∧
          c7TierStep srv2 inv2 c target requester BRONZE
            (BUDGET_CAPS m.priority BRONZE) (idxOf inv c BRONZE).length now
            counts.bronze srv3 inv3) ∧
      ((BUDGET_CAPS m.priority GOLD ≤ (idxOf inv c GOLD).length ∧
        BUDGET_CAPS m.priority SILVER ≤ (idxOf inv c SILVER).length ∧
        BUDGET_CAPS m.priority BRONZE ≤ (idxOf inv c BRONZE).length) →
        sync_inventory srv inv c target requester now =
          .ok (⟨0, 0, 0⟩, srv, inv))) := by
  refine ⟨?_, ?_⟩
  · intro h0
    simp only [sync_inventory, h0]
  · intro m hm
    have hsum := summary_of_meta hm
    refine ⟨?_, ?_⟩
    · intro counts srv3 inv3 hrun
      simp only [sync_inventory, hm, hsum] at hrun
      split at hrun
      · rename_i ng srv1 inv1 h1
        split at hrun
        · rename_i ns srv2 inv2 h2
          split at hrun
          · rename_i nb srvF invF h3
            injection hrun with hrun
            have hc : counts = ⟨ng, ns, nb⟩ :=
              (congrArg (fun p => p.1) hrun).symm
            have hs : srv3 = srvF := (congrArg (fun p => p.2.1) hrun).symm
            have hi : inv3 = invF := (congrArg (fun p => p.2.2) hrun).symm
            subst hc
            subst hs
            subst hi
            exact ⟨srv1, inv1, srv2, inv2, syncTier_ok h1, syncTier_ok h2,
              syncTier_ok h3⟩
          · cases hrun
        · cases hrun
      · cases hrun
    · rintro ⟨hG, hS, hB⟩
      have h1 : syncTier srv inv c target requester GOLD
          ((BUDGET_CAPS m.priority GOLD : Int) -
            ((idxOf inv c GOLD).length : Int)) now = .ok (0, srv, inv) :=
        syncTier_skip (sub_nonpos.mpr (by exact_mod_cast hG))
      have h2 : syncTier srv inv c target requester SILVER
          ((BUDGET_CAPS m.priority SILVER : Int) -
            ((idxOf inv c SILVER).length : Int)) now = .ok (0, srv, inv) :=
        syncTier_skip (sub_nonpos.mpr (by exact_mod_cast hS))
      have h3 : syncTier srv inv c target requester BRONZE
          ((BUDGET_CAPS m.priority BRONZE : Int) -
            ((idxOf inv c BRONZE).length : Int)) now = .ok (0, srv, inv) :=
        syncTier_skip (sub_nonpos.mpr (by exact_mod_cast hB))
      simp only [sync_inventory, hm, hsum, h1, h2, h3]

theorem C7_sync_inventory_witness :
    (get_contact_meta c7Inv "dave" = none ∧
     sync_inventory c7Srv c7Inv "dave" "target" "alice" 20 =
       .ok (⟨0, 0, 0⟩, c7Srv, c7Inv)) ∧
    (get_contact_meta c7InvStr "carol" =
       some ⟨"carol", Priority.STRANGER, 0, "Carol"⟩ ∧
     sync_inventory c7Srv c7InvStr "carol" "target" "alice" 20 =
       .ok (⟨0, 0, 0⟩, c7Srv, c7InvStr)) ∧
    (sync_inventory c7Srv c7Inv "bob" "target" "alice" 20 =
       .ok (⟨0, 1, 0⟩, c7Srv3, c7Inv3) ∧
     ∃ srv1 inv1 srv2 inv2,
       c7TierStep c7Srv c7Inv "bob" "target" "alice" GOLD
         (BUDGET_CAPS Priority.MATE GOLD) (idxOf c7Inv "bob" GOLD).length 20
         0 srv1 inv1 ∧
       c7TierStep srv1 inv1 "bob" "target" "alice" SILVER
         (BUDGET_CAPS Priority.MATE SILVER) (idxOf c7Inv "bob" SILVER).length 20
         1 srv2 inv2 ∧
       c7TierStep srv2 inv2 "bob" "target" "alice" BRONZE
         (BUDGET_CAPS Priority.MATE BRONZE) (idxOf c7Inv "bob" BRONZE).length 20
         0 c7Srv3 c7Inv3) :=
  ⟨⟨by decide,
    (C7_sync_inventory c7Srv c7Inv "dave" "target" "alice" 20).1 (by decide)⟩,
   ⟨by decide,
    ((C7_sync_inventory c7Srv c7InvStr "carol" "target" "alice" 20).2
      ⟨"carol", Priority.STRANGER, 0, "Carol"⟩ (by decide)).2
      ⟨by decide, by decide, by decide⟩⟩,
   ⟨by decide,
    ((C7_sync_inventory c7Srv c7Inv "bob" "target" "alice" 20).2
      ⟨"bob", Priority.MATE, 0, "Bob"⟩ (by decide)).1
      ⟨0, 1, 0⟩ c7Srv3 c7Inv3 (by decide)⟩⟩

/-- `gcTier` adds exactly the tier index cardinality to the counter. -/
theorem gcTier_count (c : String) (acc : Nat × InvState) (t : Tier) :
    (gcTier c acc t).1 = acc.1 + (idxOf acc.2 c t).length := by
  unfold gcTier
  by_cases hE : (idxOf acc.2 c t).isEmpty = true
  · rw [if_pos hE]
    have h0 : idxOf acc.2 c t = [] := by
      cases hl : idxOf acc.2 c t with
      | nil => rfl
      | cons a l =>
        rw [hl] at hE
        simp at hE
    rw [h0]
    simp
  · rw [if_neg hE]

/-- `gcTier` leaves every other tier index alone. -/
theorem gcTier_idx (c : String) (acc : Nat × InvState) (t : Tier)
    (c2 : String) (t2 : Tier) (h : (c2, t2) ≠ (c, t)) :
    idxOf (gcTier c acc t).2 c2 t2 = idxOf acc.2 c2 t2 := by
  unfold gcTier
  by_cases hE : (idxOf acc.2 c t).isEmpty = true
  · rw [if_pos hE]
  · rw [if_neg hE]
    exact congrArg (fun o => o.getD [])
      (alookup_aremove_ne acc.2.idx (c, t) (c2, t2) h)

/-- `gcTier` never touches the meta keyspace. -/
theorem gcTier_meta (c : String) (acc : Nat × InvState) (t : Tier) :
    (gcTier c acc t).2.meta = acc.2.meta := by
  unfold gcTier
  by_cases hE : (idxOf acc.2 c t).isEmpty = true
  · rw [if_pos hE]
  · rw [if_neg hE]

/-- The deletion count of `_delete_all_keys_for_contact` is the sum of
the three tier-index cardinalities. -/
theorem deleteAll_count (s : InvState) (c : String) :
    (deleteAllKeysForContact s c).1 = (idxOf s c GOLD).length +
      (idxOf s c SILVER).length + (idxOf s c BRONZE).length := by
  unfold deleteAllKeysForContact
  simp only [List.foldl_cons, List.foldl_nil]
  rw [gcTier_count, gcTier_count, gcTier_count,
    gcTier_idx _ _ _ _ _ (by simp), gcTier_idx _ _ _ _ _ (by simp),
    gcTier_idx _ _ _ _ _ (by simp)]
  simp [Nat.add_assoc]

/-- `_delete_all_keys_for_contact` never touches the meta keyspace. -/
theorem deleteAll_meta (s : InvState) (c : String) :
    (deleteAllKeysForContact s c).2.meta = s.meta := by
  unfold deleteAllKeysForContact
  simp only [List.foldl_cons, List.foldl_nil]
  rw [gcTier_meta, gcTier_meta, gcTier_meta]

/-- Meta reads are unaffected by `_delete_all_keys_for_contact`. -/
theorem deleteAll_meta_look (s : InvState) (c c2 : String) :
    get_contact_meta (deleteAllKeysForContact s c).2 c2 =
      get_contact_meta s c2 := by
  unfold get_contact_meta
  rw [deleteAll_meta]

/-- `_delete_all_keys_for_contact` leaves other contacts' indexes alone. -/
theorem deleteAll_idx (s : InvState) (c c2 : String) (t2 : Tier)
    (hne : c2 ≠ c) :
    idxOf (deleteAllKeysForContact s c).2 c2 t2 = idxOf s c2 t2 := by
  unfold deleteAllKeysForContact
  simp only [List.foldl_cons, List.foldl_nil]
  rw [gcTier_idx _ _ _ _ _ (by simp [hne]), gcTier_idx _ _ _ _ _ (by simp [hne]),
    gcTier_idx _ _ _ _ _ (by simp [hne])]

/-- `trimTier` never touches the meta keyspace. -/
theorem trimTier_meta (s : InvState) (c : String) (t : Tier) (cap : Nat) :
    (trimTier s c t cap).2.meta = s.meta := by
  unfold trimTier
  by_cases hl : (idxOf s c t).length ≤ cap
  · rw [if_pos hl]
  · rw [if_neg hl]

/-- `_trim_excess` never touches the meta keyspace. -/
theorem trimExcess_meta (s : InvState) (c : String) (p : Priority) :
    (trimExcess s c p).2.meta = s.meta := by
  unfold trimExcess
  simp only []
  rw [trimTier_meta, trimTier_meta, trimTier_meta]

/-- A successful `set_contact_priority` leaves other contacts' meta
hashes alone. -/
theorem scp_meta_ne {s : InvState} {c : String} {p : Priority} {b : Bool}
    {s2 : InvState} (h : set_contact_priority s c p = .ok (b, s2))
    {c2 : String} (hne : c2 ≠ c) :
    get_contact_meta s2 c2 = get_contact_meta s c2 := by
  unfold get_contact_meta
  unfold set_contact_priority at h
  rcases hm : alookup s.meta c with _ | m
  · rw [hm] at h
    cases h
  · rw [hm] at h
    simp only [] at h
    by_cases heq : m.priority = p
    · rw [if_pos heq] at h
      injection h with h
      have hs : s = s2 := congrArg Prod.snd h
      rw [← hs]
    · rw [if_neg heq] at h
      by_cases hlt : priorityRank m.priority < priorityRank p
      · rw [if_pos hlt] at h
        injection h with h
        have hs : (trimExcess { s with meta := aupdate s.meta c { m with priority := p } } c p).2 = s2 :=
          congrArg Prod.snd h
        rw [← hs, trimExcess_meta]
        exact alookup_aupdate_ne s.meta c c2 _ hne
      · rw [if_neg hlt] at h
        injection h with h
        have hs : ({ s with meta := aupdate s.meta c { m with priority := p } } : InvState) = s2 :=
          congrArg Prod.snd h
        rw [← hs]
        exact alookup_aupdate_ne s.meta c c2 _ hne

/-- A successful `set_contact_priority` leaves other contacts' tier
indexes alone. -/
theorem scp_idx_ne {s : InvState} {c : String} {p : Priority} {b : Bool}
    {s2 : InvState} (h : set_contact_priority s c p = .ok (b, s2))
    {c2 : String} (hne : c2 ≠ c) (t : Tier) :
    idxOf s2 c2 t = idxOf s c2 t := by
  unfold set_contact_priority at h
  rcases hm : alookup s.meta c with _ | m
  · rw [hm] at h
    cases h
  · rw [hm] at h
    simp only [] at h
    by_cases heq : m.priority = p
    · rw [if_pos heq] at h
      injection h with h
      have hs : s = s2 := congrArg Prod.snd h
      rw [← hs]
    · rw [if_neg heq] at h
      by_cases hlt : priorityRank m.priority < priorityRank p
      · rw [if_pos hlt] at h
        injection h with h
        have hs : (trimExcess { s with meta := aupdate s.meta c { m with priority := p } } c p).2 = s2 :=
          congrArg Prod.snd h
        rw [← hs, trimExcess_idx_ne_contact _ p t hne]
        rfl
      · rw [if_neg hlt] at h
        injection h with h
        have hs : ({ s with meta := aupdate s.meta c { m with priority := p } } : InvState) = s2 :=
          congrArg Prod.snd h
        rw [← hs]
        rfl

/-- The `garbage_collect` step for one contact adds exactly what the
`dry_run` step reports, whenever the two states agree on that contact. -/
theorem gcStep_count (days now : Nat) (s : InvState)
    (acc : GCResult × InvState) (c : String)
    (h1 : get_contact_meta acc.2 c = get_contact_meta s c)
    (h2 : ∀ t, idxOf acc.2 c t = idxOf s c t) :
    (gcStep days now acc c).1 = dryStep days now s acc.1 c := by
  rcases hm : get_contact_meta s c with _ | m
  · simp only [gcStep, dryStep, h1, hm]
  · simp only [gcStep, dryStep, h1, hm]
    by_cases hI : isInactive m.last_msg_at days now = true
    · rw [if_pos hI]
      simp only [deleteAll_count, h2]
      rw [if_pos hI]
    · rw [if_neg hI]
      rw [if_neg hI]

/-- The `garbage_collect` step for one contact leaves every other
contact's meta hash alone. -/
theorem gcStep_meta (days now : Nat) (acc : GCResult × InvState)
    (c c2 : String) (hne : c2 ≠ c) :
    get_contact_meta (gcStep days now acc c).2 c2 =
      get_contact_meta acc.2 c2 := by
  rcases hm : get_contact_meta acc.2 c with _ | m
  · simp only [gcStep, hm]
  · simp only [gcStep, hm]
    by_cases hI : isInactive m.last_msg_at days now = true
    · rw [if_pos hI]
      rcases hscp : set_contact_priority (deleteAllKeysForContact acc.2 c).2 c
          Priority.STRANGER with e | ⟨b2, s2⟩
      · simp only [hscp]
        exact deleteAll_meta_look acc.2 c c2
      · simp only [hscp]
        exact (scp_meta_ne hscp hne).trans (deleteAll_meta_look acc.2 c c2)
    · rw [if_neg hI]

/-- The `garbage_collect` step for one contact leaves every other
contact's tier indexes alone. -/
theorem gcStep_idx (days now : Nat) (acc : GCResult × InvState)
    (c c2 : String) (t2 : Tier) (hne : c2 ≠ c) :
    idxOf (gcStep days now acc c).2 c2 t2 = idxOf acc.2 c2 t2 := by
  rcases hm : get_contact_meta acc.2 c with _ | m
  · simp only [gcStep, hm]
  · simp only [gcStep, hm]
    by_cases hI : isInactive m.last_msg_at days now = true
    · rw [if_pos hI]
      rcases hscp : set_contact_priority (deleteAllKeysForContact acc.2 c).2 c
          Priority.STRANGER with e | ⟨b2, s2⟩
      · simp only [hscp]
        exact deleteAll_idx acc.2 c c2 t2 hne
      · simp only [hscp]
        exact (scp_idx_ne hscp hne t2).trans (deleteAll_idx acc.2 c c2 t2 hne)
    · rw [if_neg hI]

/-- Over a duplicate-free contact list, the mutating collection fold
reports exactly what the read-only fold reports, as long as the running
state still agrees with the scanned state on every remaining contact. -/
theorem gc_fold_dry (days now : Nat) (s : InvState) :
    ∀ (cs : List String), cs.Nodup → ∀ (acc : GCResult × InvState),
      (∀ c ∈ cs, get_contact_meta acc.2 c = get_contact_meta s c ∧
        ∀ t, idxOf acc.2 c t = idxOf s c t) →
      (cs.foldl (gcStep days now) acc).1 =
        cs.foldl (dryStep days now s) acc.1 := by
  intro cs
  induction cs with
  | nil =>
    intro _ acc _
    rfl
  | cons c cs2 ih =>
    intro hnd acc hagree
    rw [List.foldl_cons, List.foldl_cons]
    have hc := hagree c (List.mem_cons_self c cs2)
    have hstep1 : (gcStep days now acc c).1 = dryStep days now s acc.1 c :=
      gcStep_count days now s acc c hc.1 hc.2
    have hcnot : c ∉ cs2 := (List.nodup_cons.mp hnd).1
    have hagree2 : ∀ c2 ∈ cs2,
        get_contact_meta (gcStep days now acc c).2 c2 = get_contact_meta s c2 ∧
        ∀ t, idxOf (gcStep days now acc c).2 c2 t = idxOf s c2 t := by
      intro c2 hc2
      have hne : c2 ≠ c := fun he => hcnot (he ▸ hc2)
      obtain ⟨ha1, ha2⟩ := hagree c2 (List.mem_cons_of_mem c hc2)
      exact ⟨(gcStep_meta days now acc c c2 hne).trans ha1,
        fun t => (gcStep_idx days now acc c c2 t hne).trans (ha2 t)⟩
    rw [ih (List.nodup_cons.mp hnd).2 (gcStep days now acc c) hagree2, hstep1]

/-- C9: on a duplicate-free meta keyspace, `dry_run` returns the same
`GCResult` (contacts cleaned, keys deleted, bytes freed) that
`garbage_collect` returns on that state, and it hands the keyspace back
unchanged. -/
theorem C9_dry_run (s : InvState) (days now : Nat)
    (hnd : (s.meta.map Prod.fst).Nodup) :
    (dry_run s days now).1 = (garbage_collect s days now).1 ∧
    (dry_run s days now).2 = s := by
  refine ⟨?_, rfl⟩
  exact (gc_fold_dry days now s (s.meta.map Prod.fst) hnd (⟨0, 0, 0⟩, s)
    (fun c _ => ⟨rfl, fun t => rfl⟩)).symm

theorem C9_dry_run_witness :
    (c9Inv.meta.map Prod.fst).Nodup ∧
    ((dry_run c9Inv 30 990000000000).1 =
      (garbage_collect c9Inv 30 990000000000).1 ∧
     (dry_run c9Inv 30 990000000000).2 = c9Inv) :=
  ⟨by decide, C9_dry_run c9Inv 30 990000000000 (by decide)⟩

/-- Run induction for C5: the `(key, fetched_at)` pairs drawn from a tier
form a sublist of that tier's initial sorted index, every returned key had
a record at the start of the run, and the returned keys are distinct. -/
theorem runSelects_facts (c : String) (p : Priority) :
    ∀ (reqs : List (Tier × Nat)) (s : InvState), InvWF s →
      getPriority s c = some p →
      (∀ t, ((drawnFrom (runSelects c s reqs).1 t).map
        (fun e => (e.key_id, e.fetched_at))).Sublist (idxOf s c t)) ∧
      (∀ x ∈ returnedKeys (runSelects c s reqs).1, alookup s.recs (c, x) ≠ none) ∧
      (returnedKeys (runSelects c s reqs).1).Nodup := by
  intro reqs
  induction reqs with
  | nil =>
    intro s _ _
    refine ⟨?_, ?_, ?_⟩
    · intro t
      exact List.nil_sublist _
    · intro x hx
      cases hx
    · exact List.Pairwise.nil
  | cons req rest ih =>
    intro s hwf hreg
    obtain ⟨t0, now0⟩ := req
    obtain ⟨r, s1, hsel, hwf1, hreg1, hcase⟩ := select_src_step s c p t0 now0 hwf hreg
    have hrun : runSelects c s ((t0, now0) :: rest) =
        (r :: (runSelects c s1 rest).1, (runSelects c s1 rest).2) := by
      rw [runSelects, hsel]
    obtain ⟨ihsub, ihkeys, ihnd⟩ := ih s1 hwf1 hreg1
    rcases hcase with ⟨hr, hs1⟩ | ⟨e, t', tl, hr, hidxt, hidx1, hidxo, hnone1, hoth, hrecs⟩
    · subst hr
      subst hs1
      refine ⟨?_, ?_, ?_⟩
      · intro t
        rw [hrun]
        show ((drawnFrom (none :: (runSelects c s1 rest).1) t).map _).Sublist _
        rw [show drawnFrom (none :: (runSelects c s1 rest).1) t =
          drawnFrom (runSelects c s1 rest).1 t from rfl]
        exact ihsub t
      · intro x hx
        rw [hrun] at hx
        exact ihkeys x hx
      · rw [hrun]
        exact ihnd
    · subst hr
      refine ⟨?_, ?_, ?_⟩
      · intro t
        rw [hrun]
        by_cases ht : t' = t
        · subst ht
          have hdrawn : drawnFrom (some (e, t') :: (runSelects c s1 rest).1) t' =
              e :: drawnFrom (runSelects c s1 rest).1 t' := by
            rw [drawnFrom, List.filterMap_cons]
            simp only [if_pos rfl]
            rfl
          rw [hdrawn, List.map_cons, hidxt]
          have := ihsub t'
          rw [hidx1] at this
          exact this.cons₂ _
        · have hdrawn : drawnFrom (some (e, t') :: (runSelects c s1 rest).1) t =
              drawnFrom (runSelects c s1 rest).1 t := by
            rw [drawnFrom, List.filterMap_cons]
            simp only [if_neg ht]
            rfl
          rw [hdrawn, ← hidxo t (fun h => ht h.symm)]
          exact ihsub t
      · intro x hx
        rw [hrun] at hx
        have hx' : x = e.key_id ∨ x ∈ returnedKeys (runSelects c s1 rest).1 := by
          rw [show returnedKeys (some (e, t') :: (runSelects c s1 rest).1) =
            e.key_id :: returnedKeys (runSelects c s1 rest).1 from rfl] at hx
          exact List.mem_cons.mp hx
        rcases hx' with rfl | hx'
        · rw [hrecs]
          intro h
          cases h
        · have h1 := ihkeys x hx'
          by_cases hq : (c, x) = (c, e.key_id)
          · rw [hq, hnone1] at h1
            exact absurd rfl h1
          · rw [hoth (c, x) hq] at h1
            exact h1
      · rw [hrun]
        rw [show returnedKeys (some (e, t') :: (runSelects c s1 rest).1) =
          e.key_id :: returnedKeys (runSelects c s1 rest).1 from rfl]
        refine List.nodup_cons.mpr ⟨?_, ihnd⟩
        intro hmem
        exact (ihkeys e.key_id hmem) hnone1

/-- C4 (amended).  On a well-formed keyspace — one satisfying Invariant I1,
as every keyspace does in which no `key_id` was re-stored under a different
tier — `select_coin` for a registered contact tries the desired tier and
then only strictly lower tiers in the fallback order GOLD → [SILVER,
BRONZE], SILVER → [BRONZE], BRONZE → []; it returns nothing iff all tried
tiers are empty, and otherwise returns the head (oldest) entry of the first
non-empty tried tier, whose tier never ranks above the requested one.
Without the well-formedness hypothesis the claim fails: re-storing a cached
key under a higher tier makes `select_coin` return an entry of a higher
tier than requested (see the counterexample). -/
theorem C4_select_fallback (s : InvState) (c : String) (p : Priority) (t : Tier)
    (now : Nat) (hwf : InvWF s) (hreg : getPriority s c = some p) :
    (tiersToTry GOLD = [GOLD, SILVER, BRONZE] ∧
      tiersToTry SILVER = [SILVER, BRONZE] ∧ tiersToTry BRONZE = [BRONZE]) ∧
    ∃ r s2, select_coin s c t now = .ok (r, s2) ∧
      (r = none ↔ ∀ t' ∈ tiersToTry t, idxOf s c t' = []) ∧
      (∀ e, r = some e → tierLevel e.coin_category ≤ tierLevel t ∧
        ∃ pre post, tiersToTry t = pre ++ e.coin_category :: post ∧
          (∀ t'' ∈ pre, idxOf s c t'' = []) ∧
          (idxOf s c e.coin_category).head? = some (e.key_id, e.fetched_at)) := by
  refine ⟨by decide, ?_⟩
  have hsel : select_coin s c t now =
      .ok ((selectLoop c now s (tiersToTry t)).1.map Prod.fst,
        (selectLoop c now s (tiersToTry t)).2) := by
    unfold select_coin select_coin_src
    rw [hreg]
    rfl
  refine ⟨(selectLoop c now s (tiersToTry t)).1.map Prod.fst,
    (selectLoop c now s (tiersToTry t)).2, hsel, ?_, ?_⟩
  · rcases selectLoop_spec c now (tiersToTry t) s hwf with
      ⟨hnone, hall⟩ | ⟨e, t', pre, post, hres, hsplit, hpre, hhd, hcat, hrec0⟩
    · rw [hnone]
      exact ⟨fun _ => hall, fun _ => rfl⟩
    · rw [hres]
      constructor
      · intro h
        cases h
      · intro hall
        have ht' : t' ∈ tiersToTry t := by
          rw [hsplit]
          exact List.mem_append.mpr (Or.inr (List.mem_cons_self _ _))
        rw [hall t' ht'] at hhd
        cases hhd
  · intro e' he'
    rcases selectLoop_spec c now (tiersToTry t) s hwf with
      ⟨hnone, hall⟩ | ⟨e, t', pre, post, hres, hsplit, hpre, hhd, hcat, hrec0⟩
    · rw [hnone] at he'
      cases he'
    · rw [hres] at he'
      simp only [Option.map_some'] at he'
      injection he' with he'
      subst he'
      have ht' : e.coin_category ∈ tiersToTry t := by
        rw [hsplit, hcat]
        exact List.mem_append.mpr (Or.inr (List.mem_cons_self _ _))
      refine ⟨tiersToTry_level t _ ht', pre, post, ?_, hpre, ?_⟩
      · rw [hsplit, hcat]
      · rw [hcat]
        exact hhd

/-- C4 counterexample.  In `c4State`, key "k" was cached under BRONZE and
then re-stored under GOLD: the record now carries `coin_category = GOLD`
while the stale BRONZE index member remains.  `select_coin("bob", BRONZE)`
pops the BRONZE index, reads the record and returns a GOLD entry — a tier
strictly higher than the requested BRONZE, refuting "never returns an
entry of a tier higher than the requested one" as stated. -/
theorem C4_select_fallback_counterexample :
    (select_coin c4State "bob" BRONZE 3).map (fun r => r.1.map (·.coin_category)) =
      .ok (some GOLD) ∧ tierLevel BRONZE < tierLevel GOLD := by decide

/-- C4 witness: the amended theorem applied to a well-formed keyspace
holding one SILVER key, requesting GOLD (fallback hit) — plus concrete
checks of the discharged hypotheses. -/
theorem C4_select_fallback_witness :
    (InvWF c4WFState ∧ getPriority c4WFState "bob" = some BESTIE) ∧
    ((tiersToTry GOLD = [GOLD, SILVER, BRONZE] ∧
      tiersToTry SILVER = [SILVER, BRONZE] ∧ tiersToTry BRONZE = [BRONZE]) ∧
    ∃ r s2, select_coin c4WFState "bob" GOLD 5 = .ok (r, s2) ∧
      (r = none ↔ ∀ t' ∈ tiersToTry GOLD, idxOf c4WFState "bob" t' = []) ∧
      (∀ e, r = some e → tierLevel e.coin_category ≤ tierLevel GOLD ∧
        ∃ pre post, tiersToTry GOLD = pre ++ e.coin_category :: post ∧
          (∀ t'' ∈ pre, idxOf c4WFState "bob" t'' = []) ∧
          (idxOf c4WFState "bob" e.coin_category).head? =
            some (e.key_id, e.fetched_at))) :=
  ⟨⟨by decide, by decide⟩,
   C4_select_fallback c4WFState "bob" BESTIE GOLD 5 (by decide) (by decide)⟩

/-- C5 (amended).  On a well-formed keyspace (Invariant I1, as holds
whenever no `key_id` was re-stored under a different tier), any run of
successive `select_coin` calls for one contact returns, among the entries
drawn from any single tier, `fetched_at` values in non-decreasing (oldest
first) order, and no key id is returned twice across the whole run.
Without well-formedness the order claim fails: a stale index member left
by a cross-tier re-store is popped with its old score but returned with
its new `fetched_at` (see the counterexample). -/
theorem C5_select_fifo (s : InvState) (c : String) (p : Priority)
    (reqs : List (Tier × Nat)) (hwf : InvWF s) (hreg : getPriority s c = some p) :
    (∀ t, List.Chain' (fun e e' => e.fetched_at ≤ e'.fetched_at)
      (drawnFrom (runSelects c s reqs).1 t)) ∧
    (returnedKeys (runSelects c s reqs).1).Nodup := by
  obtain ⟨hsub, _, hnd⟩ := runSelects_facts c p reqs s hwf hreg
  refine ⟨?_, hnd⟩
  intro t
  have hsorted : ZSorted (idxOf s c t) := sorted_idxOf hwf.2.1 c t
  have hpw := List.Pairwise.sublist (hsub t) hsorted
  have hpw' : (drawnFrom (runSelects c s reqs).1 t).Pairwise
      (fun e e' => zle (e.key_id, e.fetched_at) (e'.key_id, e'.fetched_at)) :=
    List.pairwise_map.mp hpw
  exact List.Pairwise.chain' (hpw'.imp (fun h => zle_score h))

/-- C5 counterexample.  In `c5State` two successive
`select_coin("bob", SILVER)` calls both draw from the SILVER index, but
return `fetched_at` 5 and then `fetched_at` 2 — a strictly decreasing
pair, refuting the non-decreasing order claim as stated: the first pop
returns the re-stored record ("k", now a GOLD entry fetched at 5) through
the stale SILVER index member with old score 1. -/
theorem C5_select_fifo_counterexample :
    ((runSelects "bob" c5State [(SILVER, 6), (SILVER, 7)]).1.map
      (fun o => o.map (fun x => (x.1.fetched_at, x.2)))) =
      [some (5, SILVER), some (2, SILVER)] ∧ (2 : Nat) < 5 := by decide

/-- C5 witness: the amended theorem applied to a well-formed keyspace with
two SILVER keys and a run of two SILVER selects. -/
theorem C5_select_fifo_witness :
    (InvWF c5WFState ∧ getPriority c5WFState "bob" = some BESTIE) ∧
    (∀ t, List.Chain' (fun e e' => e.fetched_at ≤ e'.fetched_at)
      (drawnFrom (runSelects "bob" c5WFState [(SILVER, 5), (SILVER, 6)]).1 t)) ∧
    (returnedKeys (runSelects "bob" c5WFState [(SILVER, 5), (SILVER, 6)]).1).Nodup :=
  ⟨⟨by decide, by decide⟩,
   C5_select_fifo c5WFState "bob" BESTIE [(SILVER, 5), (SILVER, 6)]
     (by decide) (by decide)⟩

/-- C10.  For a registered contact and a tier with spare cap,
`SmartInventory.store_key` with a `key_id` already cached in that tier
succeeds: it returns `true`, overwrites the entry record (new blobs and
`fetched_at = now`), re-scores the existing index member instead of adding
a second one — the tier count does not grow — and raises no duplicate-key
error, unlike `SecureVault.store_key`, which rejects an existing `key_id`
with `KeyAlreadyExists`. -/
theorem C10_store_overwrite :
    (∀ (s : InvState) (c k : String) (t : Tier) (pk sig : String) (now : Nat)
      (p : Priority), getPriority s c = some p →
      k ∈ zmembers (idxOf s c t) →
      (idxOf s c t).length < BUDGET_CAPS p t →
      ∃ s', store_key s c k t pk sig now = .ok (true, s') ∧
        (idxOf s' c t).length = (idxOf s c t).length ∧
        alookup s'.recs (c, k) = some ⟨c, k, t, pk, sig, now⟩ ∧
        (k, now) ∈ idxOf s' c t) ∧
    (∀ (vs : VaultState) (k : String) (t : Tier) (blob iv tag ver : String)
      (now : Nat) (e : VaultEntry), alookup vs.entries k = some e →
      vault_store_key vs k t blob iv tag ver now = .error (.keyAlreadyExists k)) := by
  constructor
  · intro s c k t pk sig now p hp hmem hcap
    unfold store_key
    rw [hp]
    simp only []
    have hcap0 : ¬ BUDGET_CAPS p t = 0 := by
      intro h
      rw [h] at hcap
      exact Nat.not_lt_zero _ hcap
    rw [if_neg hcap0, if_neg (Nat.not_le_of_lt hcap)]
    refine ⟨_, rfl, ?_, ?_, ?_⟩
    · rw [idxOf_update_self]
      exact zadd_length_of_mem _ _ _ hmem
    · exact alookup_aupdate_self _ _ _
    · rw [idxOf_update_self]
      exact self_mem_zinsertSorted k now _
  · intro vs k t blob iv tag ver now e he
    unfold vault_store_key
    rw [he]

/-- C10 witness: the theorem applied to a BESTIE contact re-storing its
cached GOLD key, and to a vault re-storing an existing key. -/
theorem C10_store_overwrite_witness :
    (getPriority c10State "bob" = some BESTIE ∧
      "k" ∈ zmembers (idxOf c10State "bob" GOLD) ∧
      (idxOf c10State "bob" GOLD).length < BUDGET_CAPS BESTIE GOLD ∧
      ∃ s', store_key c10State "bob" "k" GOLD "p2" "g2" 7 = .ok (true, s') ∧
        (idxOf s' "bob" GOLD).length = (idxOf c10State "bob" GOLD).length ∧
        alookup s'.recs ("bob", "k") = some ⟨"bob", "k", GOLD, "p2", "g2", 7⟩ ∧
        ("k", 7) ∈ idxOf s' "bob" GOLD) ∧
    (alookup c10Vault.entries "k" = some c10VaultEntry ∧
      vault_store_key c10Vault "k" GOLD "b2" "i2" "t2" "v2" 7 =
        .error (.keyAlreadyExists "k")) :=
  ⟨⟨by decide, by decide, by decide,
    C10_store_overwrite.1 c10State "bob" "k" GOLD "p2" "g2" 7 BESTIE
      (by decide) (by decide) (by decide)⟩,
   ⟨by decide,
    C10_store_overwrite.2 c10Vault "k" GOLD "b2" "i2" "t2" "v2" 7 c10VaultEntry
      (by decide)⟩⟩

/-- C8.  `set_contact_priority` raises `NotRegistered` for an unknown
contact; returns `true` without changes when the priority is unchanged;
on a downgrade (strictly lower rank) it trims each tier to the new cap by
evicting the highest-`fetched_at` members — the surviving index is the
`cap`-member sorted head, every survivor's score is at most every evicted
score, surviving records are retained and evicted records are deleted;
and on a non-downgrade change only the meta priority field is written
(no trim). -/
theorem C8_set_priority (s : InvState) (c : String) (p : Priority) :
    (alookup s.meta c = none →
      set_contact_priority s c p = .error (.contactNotRegistered c)) ∧
    (∀ m, alookup s.meta c = some m → m.priority = p →
      set_contact_priority s c p = .ok (true, s)) ∧
    (∀ m, alookup s.meta c = some m → m.priority ≠ p →
      priorityRank m.priority < priorityRank p →
      ∃ s', set_contact_priority s c p = .ok (true, s') ∧
        getPriority s' c = some p ∧
        (∀ t, idxOf s' c t = (idxOf s c t).take (BUDGET_CAPS p t)) ∧
        (∀ t, ZSorted (idxOf s c t) →
          ∀ kv ∈ (idxOf s c t).take (BUDGET_CAPS p t),
          ∀ kv' ∈ (idxOf s c t).drop (BUDGET_CAPS p t), kv.2 ≤ kv'.2) ∧
        (((zmembers (idxOf s c GOLD) ++ zmembers (idxOf s c SILVER)) ++
            zmembers (idxOf s c BRONZE)).Nodup →
          (s.recs.map Prod.fst).Nodup →
          ∀ t, (∀ kv ∈ (idxOf s c t).take (BUDGET_CAPS p t),
              alookup s'.recs (c, kv.1) = alookup s.recs (c, kv.1)) ∧
            (∀ kv ∈ (idxOf s c t).drop (BUDGET_CAPS p t),
              alookup s'.recs (c, kv.1) = none))) ∧
    (∀ m, alookup s.meta c = some m → m.priority ≠ p →
      ¬ priorityRank m.priority < priorityRank p →
      set_contact_priority s c p =
        .ok (true, { s with meta := aupdate s.meta c { m with priority := p } })) := by
  refine ⟨?_, ?_, ?_, ?_⟩
  · intro h
    unfold set_contact_priority
    rw [h]
  · intro m hm heq
    unfold set_contact_priority
    rw [hm]
    simp only []
    rw [if_pos heq]
  · intro m hm hne hrank
    unfold set_contact_priority
    rw [hm]
    simp only []
    rw [if_neg hne, if_pos hrank]
    set s1 : InvState := { s with meta := aupdate s.meta c { m with priority := p } }
      with hs1
    have hidx1 : ∀ c' t', idxOf s1 c' t' = idxOf s c' t' := fun _ _ => rfl
    have hrecs1 : s1.recs = s.recs := rfl
    set capG := BUDGET_CAPS p GOLD with hcapG
    set capS := BUDGET_CAPS p SILVER with hcapS
    set capB := BUDGET_CAPS p BRONZE with hcapB
    set sA : InvState := (trimTier s1 c GOLD capG).2 with hsA
    set sB : InvState := (trimTier sA c SILVER capS).2 with hsB
    set sC : InvState := (trimTier sB c BRONZE capB).2 with hsC
    have hfin : (trimExcess s1 c p).2 = sC := trimExcess_snd s1 c p
    have hiA : ∀ t', (c, t') ≠ (c, GOLD) → idxOf sA c t' = idxOf s c t' := by
      intro t' hne'
      rw [hsA, trimTier_idx_ne _ _ hne', hidx1]
    have hiB : ∀ t', (c, t') ≠ (c, SILVER) → idxOf sB c t' = idxOf sA c t' := by
      intro t' hne'
      rw [hsB, trimTier_idx_ne _ _ hne']
    have hiC : ∀ t', (c, t') ≠ (c, BRONZE) → idxOf sC c t' = idxOf sB c t' := by
      intro t' hne'
      rw [hsC, trimTier_idx_ne _ _ hne']
    have hidxG : idxOf sC c GOLD = (idxOf s c GOLD).take capG := by
      rw [hiC GOLD (by simp), hiB GOLD (by simp), hsA, trimTier_idx_self, hidx1]
    have hidxS : idxOf sC c SILVER = (idxOf s c SILVER).take capS := by
      rw [hiC SILVER (by simp), hsB, trimTier_idx_self, hiA SILVER (by simp)]
    have hidxB : idxOf sC c BRONZE = (idxOf s c BRONZE).take capB := by
      rw [hsC, trimTier_idx_self, hiB BRONZE (by simp), hiA BRONZE (by simp)]
    refine ⟨sC, by rw [hfin], ?_, ?_, ?_, ?_⟩
    · rw [hsC, trimTier_priority, hsB, trimTier_priority, hsA, trimTier_priority,
        hs1]
      show getPriority { s with meta := aupdate s.meta c _ } c = _
      unfold getPriority
      rw [alookup_aupdate_self]
      rfl
    · intro t
      cases t
      · exact hidxG
      · exact hidxS
      · exact hidxB
    · intro t hs'
      exact take_le_drop_of_sorted hs' _
    · intro hsep hrnd t
      obtain ⟨hgN, hsN, hbN, hGS, hGB, hSB⟩ := nodup_append3 hsep
      set dkG := ((idxOf s c GOLD).drop capG).map (fun kv => (c, kv.1)) with hdkG
      set dkS := ((idxOf s c SILVER).drop capS).map (fun kv => (c, kv.1)) with hdkS
      set dkB := ((idxOf s c BRONZE).drop capB).map (fun kv => (c, kv.1)) with hdkB
      have hrecsC : sC.recs = aremoveAll (aremoveAll (aremoveAll s.recs dkG) dkS) dkB := by
        rw [hsC, trimTier_recs, hiB BRONZE (by simp), hiA BRONZE (by simp),
          hsB, trimTier_recs, hiA SILVER (by simp),
          hsA, trimTier_recs, hidx1, hrecs1]
      have hndA : ((aremoveAll s.recs dkG).map Prod.fst).Nodup :=
        (aremoveAll_keys_sublist s.recs dkG).nodup hrnd
      have hndB : ((aremoveAll (aremoveAll s.recs dkG) dkS).map Prod.fst).Nodup :=
        (aremoveAll_keys_sublist _ dkS).nodup hndA
      -- membership translations
      have hmemG : ∀ x, (c, x) ∈ dkG ↔ x ∈ zmembers ((idxOf s c GOLD).drop capG) :=
        fun x => pairKey_mem
      have hmemS : ∀ x, (c, x) ∈ dkS ↔ x ∈ zmembers ((idxOf s c SILVER).drop capS) :=
        fun x => pairKey_mem
      have hmemB : ∀ x, (c, x) ∈ dkB ↔ x ∈ zmembers ((idxOf s c BRONZE).drop capB) :=
        fun x => pairKey_mem
      cases t
      · constructor
        · intro kv hkv
          have hxG : kv.1 ∈ zmembers (idxOf s c GOLD) :=
            zmembers_take_subset _ capG kv.1 (List.mem_map_of_mem Prod.fst hkv)
          have hnG : (c, kv.1) ∉ dkG := by
            rw [hmemG]
            exact take_drop_members_disjoint capG hgN kv.1
              (List.mem_map_of_mem Prod.fst hkv)
          have hnS : (c, kv.1) ∉ dkS := by
            rw [hmemS]
            intro hx
            exact hGS kv.1 hxG (zmembers_drop_subset _ capS kv.1 hx)
          have hnB : (c, kv.1) ∉ dkB := by
            rw [hmemB]
            intro hx
            exact hGB kv.1 hxG (zmembers_drop_subset _ capB kv.1 hx)
          rw [hrecsC, alookup_aremoveAll_not_mem hnB, alookup_aremoveAll_not_mem hnS,
            alookup_aremoveAll_not_mem hnG]
        · intro kv hkv
          have hG : (c, kv.1) ∈ dkG := by
            rw [hmemG]
            exact List.mem_map_of_mem Prod.fst hkv
          rw [hrecsC]
          exact alookup_aremoveAll_none dkB
            (alookup_aremoveAll_none dkS (alookup_aremoveAll_mem hrnd hG))
      · constructor
        · intro kv hkv
          have hxS : kv.1 ∈ zmembers (idxOf s c SILVER) :=
            zmembers_take_subset _ capS kv.1 (List.mem_map_of_mem Prod.fst hkv)
          have hnG : (c, kv.1) ∉ dkG := by
            rw [hmemG]
            intro hx
            exact hGS kv.1 (zmembers_drop_subset _ capG kv.1 hx) hxS
          have hnS : (c, kv.1) ∉ dkS := by
            rw [hmemS]
            exact take_drop_members_disjoint capS hsN kv.1
              (List.mem_map_of_mem Prod.fst hkv)
          have hnB : (c, kv.1) ∉ dkB := by
            rw [hmemB]
            intro hx
            exact hSB kv.1 hxS (zmembers_drop_subset _ capB kv.1 hx)
          rw [hrecsC, alookup_aremoveAll_not_mem hnB, alookup_aremoveAll_not_mem hnS,
            alookup_aremoveAll_not_mem hnG]
        · intro kv hkv
          have hS : (c, kv.1) ∈ dkS := by
            rw [hmemS]
            exact List.mem_map_of_mem Prod.fst hkv
          rw [hrecsC]
          exact alookup_aremoveAll_none dkB (alookup_aremoveAll_mem hndA hS)
      · constructor
        · intro kv hkv
          have hxB : kv.1 ∈ zmembers (idxOf s c BRONZE) :=
            zmembers_take_subset _ capB kv.1 (List.mem_map_of_mem Prod.fst hkv)
          have hnG : (c, kv.1) ∉ dkG := by
            rw [hmemG]
            intro hx
            exact hGB kv.1 (zmembers_drop_subset _ capG kv.1 hx) hxB
          have hnS : (c, kv.1) ∉ dkS := by
            rw [hmemS]
            intro hx
            exact hSB kv.1 (zmembers_drop_subset _ capS kv.1 hx) hxB
          have hnB : (c, kv.1) ∉ dkB := by
            rw [hmemB]
            exact take_drop_members_disjoint capB hbN kv.1
              (List.mem_map_of_mem Prod.fst hkv)
          rw [hrecsC, alookup_aremoveAll_not_mem hnB, alookup_aremoveAll_not_mem hnS,
            alookup_aremoveAll_not_mem hnG]
        · intro kv hkv
          have hB : (c, kv.1) ∈ dkB := by
            rw [hmemB]
            exact List.mem_map_of_mem Prod.fst hkv
          rw [hrecsC]
          exact alookup_aremoveAll_mem hndB hB
  · intro m hm hne hrank
    unfold set_contact_priority
    rw [hm]
    simp only []
    rw [if_neg hne, if_neg hrank]

/-- C8 witness: the theorem applied to an unknown contact, an unchanged
priority, a BESTIE → MATE downgrade (GOLD cap 0 evicts all three GOLD
keys) and a MATE → BESTIE upgrade. -/
theorem C8_set_priority_witness :
    (alookup c8State.meta "ghost" = none ∧
      set_contact_priority c8State "ghost" MATE =
        .error (.contactNotRegistered "ghost")) ∧
    (alookup c8State.meta "bob" = some c8Meta ∧ c8Meta.priority = BESTIE ∧
      set_contact_priority c8State "bob" BESTIE = .ok (true, c8State)) ∧
    (c8Meta.priority ≠ MATE ∧ priorityRank c8Meta.priority < priorityRank MATE ∧
      ∃ s', set_contact_priority c8State "bob" MATE = .ok (true, s') ∧
        getPriority s' "bob" = some MATE ∧
        (∀ t, idxOf s' "bob" t = (idxOf c8State "bob" t).take (BUDGET_CAPS MATE t)) ∧
        (∀ t, ZSorted (idxOf c8State "bob" t) →
          ∀ kv ∈ (idxOf c8State "bob" t).take (BUDGET_CAPS MATE t),
          ∀ kv' ∈ (idxOf c8State "bob" t).drop (BUDGET_CAPS MATE t), kv.2 ≤ kv'.2) ∧
        (((zmembers (idxOf c8State "bob" GOLD) ++
            zmembers (idxOf c8State "bob" SILVER)) ++
            zmembers (idxOf c8State "bob" BRONZE)).Nodup →
          (c8State.recs.map Prod.fst).Nodup →
          ∀ t, (∀ kv ∈ (idxOf c8State "bob" t).take (BUDGET_CAPS MATE t),
              alookup s'.recs ("bob", kv.1) = alookup c8State.recs ("bob", kv.1)) ∧
            (∀ kv ∈ (idxOf c8State "bob" t).drop (BUDGET_CAPS MATE t),
              alookup s'.recs ("bob", kv.1) = none))) :=
  ⟨⟨by decide, (C8_set_priority c8State "ghost" MATE).1 (by decide)⟩,
   ⟨by decide, by decide,
    (C8_set_priority c8State "bob" BESTIE).2.1 c8Meta (by decide) (by decide)⟩,
   ⟨by decide, by decide,
    (C8_set_priority c8State "bob" MATE).2.2.1 c8Meta (by decide) (by decide)
      (by decide)⟩⟩

end AQM
